import Mathlib

/-!
# arduino-fsm: the transition engine of `Fsm.h` / `Fsm.cpp`

A shallow embedding of the engine and a verification of its dispatch contract.

Modelling conventions.

* A `State` object has no data the engine reads: it is compared by address only and
  its two virtual hooks are recorded in an effect trace.  A `State*` is an
  `Option State`, `none` being `NULL`.
* A `Transition` object is the record of its fields.  The engine never writes to a
  registered transition, so a `Transition*` stored in a table is modelled by the
  record it points to.
* Calling a virtual hook through a `NULL` pointer is a fault: the functions that can
  do so return `Option`, `none` being the fault.
* `unsigned long` is a `w`-bit unsigned integer (`w = 32` on Arduino targets); the
  only arithmetic on it, the subtraction of line 158, is taken modulo `2 ^ w`.
* `millis()` is the host clock.  `check_timer` calls it at most once per loop
  iteration, so the clock is passed as a function from the loop index to the
  reading returned in that iteration.
* Every function returns the effects it caused, in order, as a list.
* `realloc` is assumed to succeed and the `int` counters not to overflow: a table
  is a `List`.
-/

/-! ## Data model (`Fsm.h`) -/

/-- Identity (address) of a `State` object. -/
abbrev State := Nat

/-- A `State*`; `none` is `NULL`. -/
abbrev StatePtr := Option State

/-- A `void (*)()` callback pointer; `none` is `NULL`. -/
abbrev Callback := Option Nat

/-- The object behind a `Transition*` (`struct Transition`, with the callback of
`CBTransition`). -/
structure Transition where
  state_from : StatePtr
  state_to : StatePtr
  event : Int
  to_delete : Bool
  callback_transition : Callback
deriving DecidableEq

/-- Observable effects of the engine: the three virtual hooks it invokes and the
`Serial.println` of line 157. -/
inductive Effect where
  | on_enter (s : State)
  | on_exit (s : State)
  | on_transition (t : Transition)
  | println (now : Nat)
deriving DecidableEq

/-- The nested `Fsm::TimedTransition`; `start = 0` is the code's marker for an
unset start-timestamp. -/
structure TimedTransition where
  transition : Transition
  start : Nat
  interval : Nat
deriving DecidableEq

/-- The private members of `class Fsm`: `m_transitions` with `m_num_transitions`
and `m_timed_transitions` with `m_num_timed_transitions` are each one list. -/
structure Fsm where
  m_current_state : StatePtr
  m_transitions : List Transition
  m_timed_transitions : List TimedTransition
deriving DecidableEq

/-! ## Hooks and `Transition::make_transition` -/

/-- The call `s->on_exit()`. -/
def on_exit : StatePtr → Option (List Effect)
  | none => none
  | some a => some [Effect.on_exit a]

/-- The call `s->on_enter()`. -/
def on_enter : StatePtr → Option (List Effect)
  | none => none
  | some a => some [Effect.on_enter a]

/-- The virtual call `on_transition()` on a transition object. -/
def Transition.on_transition (t : Transition) : List Effect :=
  [Effect.on_transition t]

/-- The function `Transition::make_transition` (Fsm.cpp lines 186-201): returns `state_to` and
the hooks invoked. -/
def Transition.make_transition (t : Transition) : Option (StatePtr × List Effect) :=
  let changed : Bool := decide (t.state_from ≠ t.state_to)
  match (if changed then on_exit t.state_from else some []) with
  | none => none
  | some tr1 =>
    let tr2 := t.on_transition
    match (if changed then on_enter t.state_to else some []) with
    | none => none
    | some tr3 => some (t.state_to, tr1 ++ tr2 ++ tr3)

/-! ## Construction and registration -/

/-- The constructor `Fsm::Fsm(State*)` (lines 41-46).  The member-initialiser list sets
`m_current_state`, `m_transitions` and `m_num_transitions` only; the two members of
the timed table are not written, so they keep what the object's storage held, here
`storage` (`[]` for zero-initialised static storage). -/
def Fsm.new (initial_state : StatePtr) (storage : List TimedTransition) : Fsm :=
  { m_current_state := initial_state
    m_transitions := []
    m_timed_transitions := storage }

/-- The factory `Fsm::create_transition` (lines 116-126); `to_delete` is `false` from the
`Transition` constructor (lines 168-171). -/
def Fsm.create_transition (state_from state_to : StatePtr) (event : Int)
    (callback_transition : Callback) : Transition :=
  { state_from := state_from
    state_to := state_to
    event := event
    to_delete := false
    callback_transition := callback_transition }

/-- The overload `Fsm::add_transition(Transition*)` (lines 76-85); `none` is a `NULL`
argument. -/
def Fsm.add_transition_obj (f : Fsm) (transition : Option Transition) : Fsm :=
  match transition with
  | none => f
  | some t => { f with m_transitions := f.m_transitions ++ [t] }

/-- The overload `Fsm::add_transition(State*, State*, int, void (*)())`
(lines 64-74). -/
def Fsm.add_transition (f : Fsm) (state_from state_to : StatePtr) (event : Int)
    (on_transition : Callback) : Fsm :=
  if state_from = none ∨ state_to = none then f
  else
    let transition := Fsm.create_transition state_from state_to event on_transition
    f.add_transition_obj (some { transition with to_delete := true })

/-- The overload `Fsm::add_timed_transition(unsigned long, Transition*)`
(lines 99-113). -/
def Fsm.add_timed_transition_obj (f : Fsm) (interval : Nat)
    (transition : Option Transition) : Fsm :=
  match transition with
  | none => f
  | some t =>
    let timed_transition : TimedTransition :=
      { transition := t, start := 0, interval := interval }
    { f with m_timed_transitions := f.m_timed_transitions ++ [timed_transition] }

/-- The overload `Fsm::add_timed_transition(State*, State*, unsigned long, void (*)())`
(lines 87-97). -/
def Fsm.add_timed_transition (f : Fsm) (state_from state_to : StatePtr) (interval : Nat)
    (on_transition : Callback) : Fsm :=
  if state_from = none ∨ state_to = none then f
  else
    let transition := Fsm.create_transition state_from state_to 0 on_transition
    f.add_timed_transition_obj interval (some { transition with to_delete := true })

/-! ## Event dispatch -/

/-- The `for` loop of `Fsm::trigger` (lines 131-139) over the entries not yet
examined: the first match is fired and the loop is left. -/
def trigger_loop (cur : StatePtr) (event : Int) :
    List Transition → Option (StatePtr × List Effect)
  | [] => some (cur, [])
  | t :: rest =>
    if t.state_from = cur ∧ t.event = event then t.make_transition
    else trigger_loop cur event rest

/-- The function `Fsm::trigger` (lines 128-140). -/
def Fsm.trigger (f : Fsm) (event : Int) : Option (Fsm × List Effect) :=
  match trigger_loop f.m_current_state event f.m_transitions with
  | none => none
  | some (s, tr) => some ({ f with m_current_state := s }, tr)

/-! ## Timer dispatch -/

/-- The `unsigned long` subtraction `a - b` of line 158, on `w`-bit values. -/
def ulong_sub (w a b : Nat) : Nat := (a + 2 ^ w - b) % 2 ^ w

/-- The body of the `for` loop of `Fsm::check_timer` (lines 147-164) for the entry
`tt`, with `cur` the current state when the entry is reached and `now` the reading
`millis()` returns in this iteration.  Returns the entry, the current state and the
effects of the iteration. -/
def check_timer_entry (w now : Nat) (cur : StatePtr) (tt : TimedTransition) :
    Option (TimedTransition × StatePtr × List Effect) :=
  if tt.transition.state_from = cur then
    if tt.start = 0 then
      some ({ tt with start := now }, cur, [])
    else
      if tt.interval ≤ ulong_sub w now tt.start then
        match tt.transition.make_transition with
        | none => none
        | some (s, tr) => some ({ tt with start := 0 }, s, Effect.println now :: tr)
      else some (tt, cur, [Effect.println now])
  else some (tt, cur, [])

/-- The `for` loop of `Fsm::check_timer` (lines 145-165) from index `i` on, over the
entries not yet examined. -/
def check_timer_loop (w : Nat) (millis : Nat → Nat) :
    Nat → StatePtr → List TimedTransition →
      Option (List TimedTransition × StatePtr × List Effect)
  | _, cur, [] => some ([], cur, [])
  | i, cur, tt :: rest =>
    match check_timer_entry w (millis i) cur tt with
    | none => none
    | some (tt', cur', tr) =>
      match check_timer_loop w millis (i + 1) cur' rest with
      | none => none
      | some (rest', cur'', tr') => some (tt' :: rest', cur'', tr ++ tr')

/-- The function `Fsm::check_timer` (lines 143-166). -/
def Fsm.check_timer (w : Nat) (millis : Nat → Nat) (f : Fsm) : Option (Fsm × List Effect) :=
  match check_timer_loop w millis 0 f.m_current_state f.m_timed_transitions with
  | none => none
  | some (tts, cur, tr) =>
    some ({ f with m_current_state := cur, m_timed_transitions := tts }, tr)

/-! ## Runs of the engine -/

/-- Successive `check_timer` calls, one per clock of the list, in order; the effects
of the calls are concatenated. -/
def check_timer_polls (w : Nat) : List (Nat → Nat) → Fsm → Option (Fsm × List Effect)
  | [], f => some (f, [])
  | millis :: rest, f =>
    match f.check_timer w millis with
    | none => none
    | some (f', tr) =>
      match check_timer_polls w rest f' with
      | none => none
      | some (f'', tr') => some (f'', tr ++ tr')

/-- One timed entry over successive `check_timer` calls during which its source
state `src` is the current state each time the loop reaches the entry: the loop body
is run on the entry once per call, with the readings `rs` in order.  Returns the
entry after these calls and the effects of its iterations. -/
def dwell_polls (w : Nat) (src : StatePtr) :
    List Nat → TimedTransition → Option (TimedTransition × List Effect)
  | [], tt => some (tt, [])
  | r :: rs, tt =>
    match check_timer_entry w r src tt with
    | none => none
    | some (tt', _, tr) =>
      match dwell_polls w src rs tt' with
      | none => none
      | some (tt'', tr') => some (tt'', tr ++ tr')

/-- Whether an iteration of the `check_timer` loop fired the entry of transition
`t`: line 160 was reached, so the transition's hook is among the effects. -/
def fired (t : Transition) (r : Option (TimedTransition × StatePtr × List Effect)) : Bool :=
  match r with
  | none => false
  | some (_, _, tr) => decide (Effect.on_transition t ∈ tr)

/-- The engine states reachable from the construction `Fsm(s0)` on an object whose
timed-table storage holds `storage`, by registration calls of the four shapes,
`trigger` calls and `check_timer` calls (with any event, any clock), each paired with
the effects caused so far. -/
inductive Reachable (w : Nat) (s0 : StatePtr) (storage : List TimedTransition) :
    Fsm → List Effect → Prop where
  | construct : Reachable w s0 storage (Fsm.new s0 storage) []
  | add_transition {f : Fsm} {tr : List Effect} (state_from state_to : StatePtr)
      (event : Int) (cb : Callback) :
      Reachable w s0 storage f tr →
      Reachable w s0 storage (f.add_transition state_from state_to event cb) tr
  | add_transition_obj {f : Fsm} {tr : List Effect} (t : Option Transition) :
      Reachable w s0 storage f tr → Reachable w s0 storage (f.add_transition_obj t) tr
  | add_timed_transition {f : Fsm} {tr : List Effect} (state_from state_to : StatePtr)
      (interval : Nat) (cb : Callback) :
      Reachable w s0 storage f tr →
      Reachable w s0 storage (f.add_timed_transition state_from state_to interval cb) tr
  | add_timed_transition_obj {f : Fsm} {tr : List Effect} (interval : Nat)
      (t : Option Transition) :
      Reachable w s0 storage f tr →
      Reachable w s0 storage (f.add_timed_transition_obj interval t) tr
  | trigger {f f' : Fsm} {tr tr' : List Effect} (event : Int) :
      Reachable w s0 storage f tr → f.trigger event = some (f', tr') →
      Reachable w s0 storage f' (tr ++ tr')
  | check_timer {f f' : Fsm} {tr tr' : List Effect} (millis : Nat → Nat) :
      Reachable w s0 storage f tr → f.check_timer w millis = some (f', tr') →
      Reachable w s0 storage f' (tr ++ tr')

/-- The state pointer `p` has been the current state of an engine constructed in
`s0` whose effects so far are `tr`: it is the initial state, or `on_enter` has been
invoked on the state it points to (the current state is written only with the
result of a `make_transition`, which enters the state it returns unless that is the
state it left). -/
def was_current (s0 : StatePtr) (tr : List Effect) (p : StatePtr) : Prop :=
  p = s0 ∨ ∃ b, p = some b ∧ Effect.on_enter b ∈ tr

instance was_current_decidable (s0 : StatePtr) (tr : List Effect) (p : StatePtr) :
    Decidable (was_current s0 tr p) :=
  match p with
  | none => decidable_of_iff (none = s0) (by simp [was_current])
  | some b => decidable_of_iff (some b = s0 ∨ Effect.on_enter b ∈ tr) (by simp [was_current])

/-- Successive `trigger` calls, one per event of the list, in order; the effects of
the calls are concatenated. -/
def trigger_calls : List Int → Fsm → Option (Fsm × List Effect)
  | [], f => some (f, [])
  | event :: rest, f =>
    match f.trigger event with
    | none => none
    | some (f', tr) =>
      match trigger_calls rest f' with
      | none => none
      | some (f'', tr') => some (f'', tr ++ tr')

/-- The hook body `CBTransition::on_transition` (lines 178-184): the callback it
calls, none when `callback_transition` is `NULL`. -/
def CBTransition.on_transition (t : Transition) : List Nat :=
  match t.callback_transition with
  | none => []
  | some cb => [cb]

/-- The transition callbacks that the `on_transition` hooks among the effects call,
in order, the transitions being `CBTransition` objects. -/
def callbacks_run : List Effect → List Nat
  | [] => []
  | Effect.on_transition t :: rest => CBTransition.on_transition t ++ callbacks_run rest
  | Effect.on_enter _ :: rest => callbacks_run rest
  | Effect.on_exit _ :: rest => callbacks_run rest
  | Effect.println _ :: rest => callbacks_run rest

/-- Number of `on_transition` hook invocations among the effects: the number of
`make_transition` calls that caused them. -/
def hook_count : List Effect → Nat
  | [] => 0
  | Effect.on_transition _ :: rest => hook_count rest + 1
  | Effect.on_enter _ :: rest => hook_count rest
  | Effect.on_exit _ :: rest => hook_count rest
  | Effect.println _ :: rest => hook_count rest

/-- Both state pointers of the transition are non-null. -/
def Transition.has_states (t : Transition) : Prop :=
  t.state_from ≠ none ∧ t.state_to ≠ none

instance has_states_decidable (t : Transition) : Decidable t.has_states :=
  inferInstanceAs (Decidable (t.state_from ≠ none ∧ t.state_to ≠ none))

/-- The engine states reachable as in `Reachable`, by calls in which every
host-supplied transition instance (the argument of `add_transition(Transition*)` and
of `add_timed_transition(unsigned long, Transition*)`), when not `NULL`, has non-null
`state_from` and `state_to`. -/
inductive ReachableValid (w : Nat) (s0 : StatePtr) (storage : List TimedTransition) :
    Fsm → List Effect → Prop where
  | construct : ReachableValid w s0 storage (Fsm.new s0 storage) []
  | add_transition {f : Fsm} {tr : List Effect} (state_from state_to : StatePtr)
      (event : Int) (cb : Callback) :
      ReachableValid w s0 storage f tr →
      ReachableValid w s0 storage (f.add_transition state_from state_to event cb) tr
  | add_transition_obj {f : Fsm} {tr : List Effect} (t : Option Transition) :
      (∀ u, t = some u → u.has_states) →
      ReachableValid w s0 storage f tr → ReachableValid w s0 storage (f.add_transition_obj t) tr
  | add_timed_transition {f : Fsm} {tr : List Effect} (state_from state_to : StatePtr)
      (interval : Nat) (cb : Callback) :
      ReachableValid w s0 storage f tr →
      ReachableValid w s0 storage (f.add_timed_transition state_from state_to interval cb) tr
  | add_timed_transition_obj {f : Fsm} {tr : List Effect} (interval : Nat)
      (t : Option Transition) :
      (∀ u, t = some u → u.has_states) →
      ReachableValid w s0 storage f tr →
      ReachableValid w s0 storage (f.add_timed_transition_obj interval t) tr
  | trigger {f f' : Fsm} {tr tr' : List Effect} (event : Int) :
      ReachableValid w s0 storage f tr → f.trigger event = some (f', tr') →
      ReachableValid w s0 storage f' (tr ++ tr')
  | check_timer {f f' : Fsm} {tr tr' : List Effect} (millis : Nat → Nat) :
      ReachableValid w s0 storage f tr → f.check_timer w millis = some (f', tr') →
      ReachableValid w s0 storage f' (tr ++ tr')

/-! ## Teardown -/

/-- What the destructor releases: a transition object, by `delete`, or one of the two
table arrays, by `free`.  It has no statement that releases a `State`. -/
inductive Release where
  | delete_transition (t : Transition)
  | free_transitions
  | free_timed_transitions
deriving DecidableEq

/-- The `for` loop of `Fsm::~Fsm` (lines 51-57), over the entries of `m_transitions`
not yet examined. -/
def destructor_loop : List Transition → List Release
  | [] => []
  | t :: rest =>
    if t.to_delete then Release.delete_transition t :: destructor_loop rest
    else destructor_loop rest

/-- The destructor `Fsm::~Fsm` (lines 49-62): what it releases, in order. -/
def Fsm.destructor (f : Fsm) : List Release :=
  destructor_loop f.m_transitions
    ++ [Release.free_transitions, Release.free_timed_transitions]

/-! ## Sample configurations -/

/-- A plain transition between two states with event `e`, as the four-argument
`add_transition` creates it. -/
def sample_transition (a b : State) (e : Int) : Transition :=
  { state_from := some a, state_to := some b, event := e, to_delete := true,
    callback_transition := none }

/-- An engine in state 1 whose table holds, in this order, a transition that does
not match `(1, 7)`, two that do, and one that matches `(2, 7)`. -/
def sample_plain : Fsm :=
  { m_current_state := some 1
    m_transitions := [sample_transition 2 3 7, sample_transition 1 2 7,
      sample_transition 1 3 7, sample_transition 2 1 7]
    m_timed_transitions := [] }

/-- A timed entry from state `a` to state `b`. -/
def sample_timed (a b : State) (interval start : Nat) : TimedTransition :=
  { transition := sample_transition a b 0, start := start, interval := interval }

/-- An engine in state 1 with a self-loop on state 1 in both tables: second in the
plain table (event 7), and second in the timed table, armed at reading 5 with
interval 100. -/
def sample_loop : Fsm :=
  { m_current_state := some 1
    m_transitions := [sample_transition 2 1 7, sample_transition 1 1 7,
      sample_transition 1 2 7]
    m_timed_transitions := [sample_timed 2 1 10 0, sample_timed 1 1 100 5,
      sample_timed 1 2 50 0] }

/-- An engine constructed in state 1 on zeroed storage, with one timed transition
from state 1 to state 2 of interval 100 registered. -/
def sample_dwell : Fsm :=
  (Fsm.new (some 1) []).add_timed_transition (some 1) (some 2) 100 none

/-- An engine constructed in state 1 on zeroed storage, with two timed transitions
leaving state 1 registered, of intervals 0 and 50. -/
def sample_pair : Fsm :=
  ((Fsm.new (some 1) []).add_timed_transition (some 1) (some 2) 0 none).add_timed_transition
    (some 1) (some 3) 50 none

/-- An engine in state 1 with two timed entries: from state 1 to state 2, armed at
reading 5 with interval 100, and from state 2 to state 1, unset. -/
def sample_chain : Fsm :=
  { m_current_state := some 1
    m_transitions := []
    m_timed_transitions := [sample_timed 1 2 100 5, sample_timed 2 1 30 0] }

/-- An engine constructed in state 1 on zeroed storage, with a plain transition from
state 1 to state 2 on event 7, a timed transition from state 1 to state 3 of
interval 100 and a timed transition from state 3 to state 1 of interval 10
registered. -/
def sample_stale : Fsm :=
  (((Fsm.new (some 1) []).add_transition (some 1) (some 2) 7 none).add_timed_transition
    (some 1) (some 3) 100 none).add_timed_transition (some 3) (some 1) 10 none

/-- The engine `sample_stale` after a `check_timer` call at reading 5. -/
def sample_stale_armed : Fsm :=
  { sample_stale with
      m_timed_transitions := [sample_timed 1 3 100 5, sample_timed 3 1 10 0] }

/-- The engine `sample_stale_armed` after `trigger(7)`. -/
def sample_stale_moved : Fsm :=
  { sample_stale_armed with m_current_state := some 2 }

/-- The event scenario: states `idle` and `running`, the engine constructed in
`idle` on zeroed storage, then `add_transition(idle, running, 1, A)` and
`add_transition(running, idle, 2, B)`. -/
def event_scenario (idle running : State) (A B : Callback) : Fsm :=
  ((Fsm.new (some idle) []).add_transition (some idle) (some running) 1 A).add_transition
    (some running) (some idle) 2 B

/-- The timed scenario: states `a` and `b`, the engine constructed in `a` on zeroed
storage, then `add_timed_transition(a, b, 100, cb)`. -/
def timed_scenario (a b : State) (cb : Callback) : Fsm :=
  (Fsm.new (some a) []).add_timed_transition (some a) (some b) 100 cb

/-- A host-owned transition object between two states: `to_delete` is `false`, as
the `Transition` constructor leaves it. -/
def host_transition (a b : State) (e : Int) : Transition :=
  { state_from := some a, state_to := some b, event := e, to_delete := false,
    callback_transition := none }

/-- An engine with one transition of each registration shape: an engine-created and
a host-supplied plain transition, an engine-created and a host-supplied timed
transition. -/
def sample_owned : Fsm :=
  ((((Fsm.new (some 1) []).add_transition (some 1) (some 2) 7 none).add_transition_obj
    (some (host_transition 2 1 8))).add_timed_transition (some 1) (some 3) 100
    none).add_timed_transition_obj 50 (some (host_transition 3 1 0))

/-- An engine in state 1 with two armed self-loops on state 1 in the timed table,
with different callbacks, of intervals 100 and 50, both armed at reading 5. -/
def sample_two_loops : Fsm :=
  { m_current_state := some 1
    m_transitions := []
    m_timed_transitions :=
      [{ transition := { state_from := some 1, state_to := some 1, event := 0,
                         to_delete := true, callback_transition := some 10 },
         start := 5, interval := 100 },
       { transition := { state_from := some 1, state_to := some 1, event := 0,
                         to_delete := true, callback_transition := some 20 },
         start := 5, interval := 50 }] }

/-- An engine constructed in state 1 on storage whose timed-table members are not
zero: they describe one entry, from state 1 to state 2, armed at reading 5 with
interval 0. -/
def sample_garbage : Fsm := Fsm.new (some 1) [sample_timed 1 2 0 5]

/-- An engine constructed in state 1 on zeroed storage, with plain transitions from
state 1 to state 2 on event 7 and from state 2 back to state 1 on event 8, and a
timed transition from state 1 to state 3 of interval 100 registered. -/
def sample_return : Fsm :=
  (((Fsm.new (some 1) []).add_transition (some 1) (some 2) 7 none).add_transition
    (some 2) (some 1) 8 none).add_timed_transition (some 1) (some 3) 100 none

/-- The engine `sample_return` with its timed entry armed at reading 5. -/
def sample_return_armed : Fsm :=
  { sample_return with m_timed_transitions := [sample_timed 1 3 100 5] }

/-- An engine constructed in state 1 on zeroed storage, with one timed self-loop on
state 1 of interval 100 registered. -/
def sample_refresh : Fsm :=
  (Fsm.new (some 1) []).add_timed_transition (some 1) (some 1) 100 none

/-- An engine constructed in state 1 on zeroed storage, on which the host has
registered one and the same transition object, from state 1 to state 2 with event
0, through both instance forms: `add_transition(t)` and
`add_timed_transition(100, t)`. -/
def sample_both : Fsm :=
  ((Fsm.new (some 1) []).add_transition_obj
    (some (host_transition 1 2 0))).add_timed_transition_obj 100
    (some (host_transition 1 2 0))

/-! ## `make_transition` -/

theorem make_transition_of_ne (t : Transition) (a b : State)
    (hfrom : t.state_from = some a) (hto : t.state_to = some b) (hab : a ≠ b) :
    t.make_transition
      = some (some b, [Effect.on_exit a, Effect.on_transition t, Effect.on_enter b]) := by
  simp [Transition.make_transition, Transition.on_transition, hfrom, hto, hab,
    on_exit, on_enter]

theorem make_transition_of_eq (t : Transition) (h : t.state_from = t.state_to) :
    t.make_transition = some (t.state_to, [Effect.on_transition t]) := by
  simp [Transition.make_transition, Transition.on_transition, h]

/-! ## `trigger` -/

theorem trigger_loop_first (cur : StatePtr) (event : Int) (front : List Transition)
    (t : Transition) (back : List Transition)
    (hfront : ∀ u ∈ front, ¬ (u.state_from = cur ∧ u.event = event))
    (hfrom : t.state_from = cur) (hev : t.event = event) :
    trigger_loop cur event (front ++ t :: back) = t.make_transition := by
  induction front with
  | nil => simp [trigger_loop, hfrom, hev]
  | cons u us ih =>
    have hu : ¬ (u.state_from = cur ∧ u.event = event) := hfront u (by simp)
    have hus : ∀ v ∈ us, ¬ (v.state_from = cur ∧ v.event = event) :=
      fun v hv => hfront v (by simp [hv])
    simp only [List.cons_append, trigger_loop, if_neg hu]
    exact ih hus

theorem trigger_loop_none (cur : StatePtr) (event : Int) (ts : List Transition)
    (hno : ∀ u ∈ ts, ¬ (u.state_from = cur ∧ u.event = event)) :
    trigger_loop cur event ts = some (cur, []) := by
  induction ts with
  | nil => rfl
  | cons u us ih =>
    have hu : ¬ (u.state_from = cur ∧ u.event = event) := hno u (by simp)
    simp only [trigger_loop, if_neg hu]
    exact ih (fun v hv => hno v (by simp [hv]))

/-- Claim C1.  A transition from a state `a` to a different state `b`:
`make_transition` returns `state_to` and invokes exactly three hooks, each once, in
the order `a.on_exit`, the transition's `on_transition`, `b.on_enter`. -/
theorem make_transition_changed (t : Transition) (a b : State)
    (hfrom : t.state_from = some a) (hto : t.state_to = some b) (hab : a ≠ b) :
    t.make_transition
      = some (t.state_to, [Effect.on_exit a, Effect.on_transition t, Effect.on_enter b]) := by
  rw [make_transition_of_ne t a b hfrom hto hab, hto]

theorem make_transition_changed_witness :
    (Transition.mk (some 1) (some 2) 7 false (some 40)).make_transition
      = some (some 2, [Effect.on_exit 1,
          Effect.on_transition (Transition.mk (some 1) (some 2) 7 false (some 40)),
          Effect.on_enter 2]) :=
  make_transition_changed (Transition.mk (some 1) (some 2) 7 false (some 40)) 1 2 rfl rfl
    (by decide)

theorem exists_first_match (cur : StatePtr) (event : Int) (ts : List Transition)
    (h : ∃ u ∈ ts, u.state_from = cur ∧ u.event = event) :
    ∃ front t back, ts = front ++ t :: back
      ∧ (∀ u ∈ front, ¬ (u.state_from = cur ∧ u.event = event))
      ∧ t.state_from = cur ∧ t.event = event := by
  induction ts with
  | nil => obtain ⟨u, hu, _⟩ := h; simp at hu
  | cons v vs ih =>
    by_cases hv : v.state_from = cur ∧ v.event = event
    · exact ⟨[], v, vs, rfl, by simp, hv.1, hv.2⟩
    · have h' : ∃ u ∈ vs, u.state_from = cur ∧ u.event = event := by
        obtain ⟨u, hu, hm⟩ := h
        rcases List.mem_cons.mp hu with rfl | hu'
        · exact absurd hm hv
        · exact ⟨u, hu', hm⟩
      obtain ⟨front, t, back, hts, hfront, hfrom, hev⟩ := ih h'
      refine ⟨v :: front, t, back, by simp [hts], ?_, hfrom, hev⟩
      intro u hu
      rcases List.mem_cons.mp hu with rfl | hu'
      · exact hv
      · exact hfront u hu'

theorem trigger_eq_of_first (f : Fsm) (event : Int) (front : List Transition)
    (t : Transition) (back : List Transition)
    (hts : f.m_transitions = front ++ t :: back)
    (hfront : ∀ u ∈ front, ¬ (u.state_from = f.m_current_state ∧ u.event = event))
    (hfrom : t.state_from = f.m_current_state) (hev : t.event = event) :
    f.trigger event
      = (match t.make_transition with
         | none => none
         | some (s, tr) => some ({ f with m_current_state := s }, tr)) := by
  simp only [Fsm.trigger, hts, trigger_loop_first _ _ front t back hfront hfrom hev]

theorem trigger_no_match (f : Fsm) (event : Int)
    (hno : ∀ u ∈ f.m_transitions, ¬ (u.state_from = f.m_current_state ∧ u.event = event)) :
    f.trigger event = some (f, []) := by
  simp [Fsm.trigger, trigger_loop_none _ _ _ hno]

theorem make_transition_valid (t : Transition) (a b : State)
    (hfrom : t.state_from = some a) (hto : t.state_to = some b) :
    t.make_transition
      = some (some b, if a = b then [Effect.on_transition t]
          else [Effect.on_exit a, Effect.on_transition t, Effect.on_enter b]) := by
  by_cases hab : a = b
  · rw [make_transition_of_eq t (by rw [hfrom, hto, hab]), hto, if_pos hab]
  · rw [make_transition_of_ne t a b hfrom hto hab, if_neg hab]

/-! ## `check_timer`: the loop, entry by entry -/

theorem check_timer_loop_cons (w : Nat) (millis : Nat → Nat) (i : Nat) (cur : StatePtr)
    (tt : TimedTransition) (rest : List TimedTransition) :
    check_timer_loop w millis i cur (tt :: rest)
      = (match check_timer_entry w (millis i) cur tt with
         | none => none
         | some (tt', cur', tr) =>
           match check_timer_loop w millis (i + 1) cur' rest with
           | none => none
           | some (rest', cur'', tr') => some (tt' :: rest', cur'', tr ++ tr')) := by
  rw [check_timer_loop]

theorem check_timer_loop_append (w : Nat) (millis : Nat → Nat) (front rest : List TimedTransition) :
    ∀ (i : Nat) (cur : StatePtr),
    check_timer_loop w millis i cur (front ++ rest)
      = (match check_timer_loop w millis i cur front with
         | none => none
         | some (front', c1, tr1) =>
           match check_timer_loop w millis (i + front.length) c1 rest with
           | none => none
           | some (rest', c2, tr2) => some (front' ++ rest', c2, tr1 ++ tr2)) := by
  induction front with
  | nil =>
    intro i cur
    simp only [List.nil_append, check_timer_loop, List.length_nil, Nat.add_zero]
    rcases check_timer_loop w millis i cur rest with _ | ⟨r1, r2, r3⟩ <;> simp
  | cons tt tts ih =>
    intro i cur
    rw [List.cons_append, check_timer_loop_cons, check_timer_loop_cons]
    rcases check_timer_entry w (millis i) cur tt with _ | ⟨tt', c, tr⟩
    · rfl
    · simp only [ih (i + 1) c]
      have hidx : i + (tt :: tts).length = i + 1 + tts.length := by
        simp only [List.length_cons]; omega
      rw [hidx]
      rcases check_timer_loop w millis (i + 1) c tts with _ | ⟨tts', c1, tr1⟩
      · rfl
      · simp only []
        rcases check_timer_loop w millis (i + 1 + tts.length) c1 rest with _ | ⟨r1, r2, r3⟩
        · rfl
        · simp

theorem check_timer_at (w : Nat) (millis : Nat → Nat) (f : Fsm)
    (front : List TimedTransition) (tt : TimedTransition) (back : List TimedTransition)
    (front' : List TimedTransition) (c1 : StatePtr) (tr1 : List Effect)
    (hts : f.m_timed_transitions = front ++ tt :: back)
    (hfront : check_timer_loop w millis 0 f.m_current_state front = some (front', c1, tr1)) :
    f.check_timer w millis
      = (match check_timer_entry w (millis front.length) c1 tt with
         | none => none
         | some (tt', c2, tr2) =>
           match check_timer_loop w millis (front.length + 1) c2 back with
           | none => none
           | some (back', c3, tr3) =>
             some ({ f with m_current_state := c3,
                            m_timed_transitions := front' ++ tt' :: back' },
                   tr1 ++ tr2 ++ tr3)) := by
  simp only [Fsm.check_timer, hts, check_timer_loop_append, hfront, Nat.zero_add,
    check_timer_loop_cons]
  rcases check_timer_entry w (millis front.length) c1 tt with _ | ⟨tt', c2, tr2⟩
  · rfl
  · simp only []
    rcases check_timer_loop w millis (front.length + 1) c2 back with _ | ⟨r1, r2, r3⟩
    · rfl
    · simp

theorem check_timer_entry_other (w now : Nat) (cur : StatePtr) (tt : TimedTransition)
    (hsrc : tt.transition.state_from ≠ cur) :
    check_timer_entry w now cur tt = some (tt, cur, []) := by
  simp [check_timer_entry, hsrc]

theorem check_timer_entry_arm (w now : Nat) (cur : StatePtr) (tt : TimedTransition)
    (hsrc : tt.transition.state_from = cur) (hstart : tt.start = 0) :
    check_timer_entry w now cur tt = some ({ tt with start := now }, cur, []) := by
  simp [check_timer_entry, hsrc, hstart]

theorem check_timer_entry_hold (w now : Nat) (cur : StatePtr) (tt : TimedTransition)
    (hsrc : tt.transition.state_from = cur) (hstart : tt.start ≠ 0)
    (hlt : ulong_sub w now tt.start < tt.interval) :
    check_timer_entry w now cur tt = some (tt, cur, [Effect.println now]) := by
  simp [check_timer_entry, hsrc, hstart, Nat.not_le.mpr hlt]

theorem check_timer_entry_fire (w now : Nat) (cur : StatePtr) (tt : TimedTransition)
    (hsrc : tt.transition.state_from = cur) (hstart : tt.start ≠ 0)
    (hge : tt.interval ≤ ulong_sub w now tt.start) :
    check_timer_entry w now cur tt
      = (match tt.transition.make_transition with
         | none => none
         | some (s, tr) => some ({ tt with start := 0 }, s, Effect.println now :: tr)) := by
  simp [check_timer_entry, hsrc, hstart, hge]

/-! ## Claims on `make_transition` and `trigger` -/

/-- Claim C2.  A self-loop (`state_from == state_to`): `make_transition` invokes the
transition's `on_transition` once and no `on_exit` or `on_enter`, and returns that
same state.  This is what happens when `trigger` fires it (the first match of the
table) and when `check_timer` fires it (an armed entry whose interval has elapsed,
reached while its source state is current): besides the `Serial.println` of
`check_timer` the only effect of the firing is that hook, the current state and the
engine are as before, the fired entry's start-timestamp apart. -/
theorem make_transition_self_loop (t : Transition) (hloop : t.state_from = t.state_to) :
    t.make_transition = some (t.state_from, [Effect.on_transition t])
    ∧ (∀ (f : Fsm) (front back : List Transition),
        f.m_transitions = front ++ t :: back →
        (∀ u ∈ front, ¬ (u.state_from = f.m_current_state ∧ u.event = t.event)) →
        t.state_from = f.m_current_state →
        f.trigger t.event = some (f, [Effect.on_transition t]))
    ∧ (∀ (w : Nat) (millis : Nat → Nat) (f : Fsm) (front back front' : List TimedTransition)
        (tt : TimedTransition) (tr1 : List Effect),
        tt.transition = t →
        f.m_timed_transitions = front ++ tt :: back →
        check_timer_loop w millis 0 f.m_current_state front
          = some (front', t.state_from, tr1) →
        tt.start ≠ 0 →
        tt.interval ≤ ulong_sub w (millis front.length) tt.start →
        f.check_timer w millis
          = (match check_timer_loop w millis (front.length + 1) t.state_from back with
             | none => none
             | some (back', c3, tr3) =>
               some ({ f with m_current_state := c3,
                              m_timed_transitions := front' ++ { tt with start := 0 } :: back' },
                     tr1 ++ [Effect.println (millis front.length), Effect.on_transition t]
                       ++ tr3))) := by
  have hmk : t.make_transition = some (t.state_from, [Effect.on_transition t]) := by
    rw [make_transition_of_eq t hloop, hloop]
  refine ⟨hmk, ?_, ?_⟩
  · intro f front back hts hfront hfrom
    rw [trigger_eq_of_first f t.event front t back hts hfront hfrom rfl, hmk]
    simp only [hfrom]
  · intro w millis f front back front' tt tr1 htt hts hfront hstart hge
    rw [check_timer_at w millis f front tt back front' t.state_from tr1 hts hfront,
      check_timer_entry_fire w _ t.state_from tt (by rw [htt]) hstart hge, htt, hmk]

theorem make_transition_self_loop_witness :
    (sample_transition 1 1 7).make_transition
      = some (some 1, [Effect.on_transition (sample_transition 1 1 7)])
    ∧ sample_loop.trigger 7
      = some (sample_loop, [Effect.on_transition (sample_transition 1 1 7)])
    ∧ sample_loop.check_timer 32 (fun _ => 200)
      = (match check_timer_loop 32 (fun _ => 200) 2 (some 1) [sample_timed 1 2 50 0] with
         | none => none
         | some (back', c3, tr3) =>
           some ({ sample_loop with
                     m_current_state := c3,
                     m_timed_transitions :=
                       [sample_timed 2 1 10 0] ++ sample_timed 1 1 100 0 :: back' },
                 [] ++ [Effect.println 200, Effect.on_transition (sample_transition 1 1 0)]
                   ++ tr3)) :=
  ⟨(make_transition_self_loop (sample_transition 1 1 7) rfl).1,
   (make_transition_self_loop (sample_transition 1 1 7) rfl).2.1 sample_loop
      [sample_transition 2 1 7] [sample_transition 1 2 7] rfl (by decide) rfl,
   (make_transition_self_loop (sample_transition 1 1 0) rfl).2.2 32 (fun _ => 200)
      sample_loop [sample_timed 2 1 10 0] [sample_timed 1 2 50 0] [sample_timed 2 1 10 0]
      (sample_timed 1 1 100 5) [] rfl rfl (by decide) (by decide) (by decide)⟩

/-- Claim C3.  If some registered plain transition has `state_from` equal to the
current state and `event` equal to `e`, then `trigger(e)` fires the first such
transition `t` in registration order and nothing else, whatever is registered after
it: the call does exactly what `t.make_transition()` does and stores its result as
the current state; with `t` leading from the current state object `a` to a state
object `b`, the new current state is `state_to` and the hooks invoked are those of
that one `make_transition`. -/
theorem trigger_fires_first_match (f : Fsm) (e : Int)
    (hmatch : ∃ u ∈ f.m_transitions, u.state_from = f.m_current_state ∧ u.event = e) :
    ∃ front t back, f.m_transitions = front ++ t :: back
      ∧ (∀ u ∈ front, ¬ (u.state_from = f.m_current_state ∧ u.event = e))
      ∧ t.state_from = f.m_current_state ∧ t.event = e
      ∧ f.trigger e
          = (match t.make_transition with
             | none => none
             | some (s, tr) => some ({ f with m_current_state := s }, tr))
      ∧ ∀ a b, f.m_current_state = some a → t.state_to = some b →
          t.make_transition
            = some (t.state_to, if a = b then [Effect.on_transition t]
                else [Effect.on_exit a, Effect.on_transition t, Effect.on_enter b])
          ∧ f.trigger e
            = some ({ f with m_current_state := t.state_to },
                if a = b then [Effect.on_transition t]
                else [Effect.on_exit a, Effect.on_transition t, Effect.on_enter b]) := by
  obtain ⟨front, t, back, hts, hfront, hfrom, hev⟩ :=
    exists_first_match f.m_current_state e f.m_transitions hmatch
  have htrig := trigger_eq_of_first f e front t back hts hfront hfrom hev
  refine ⟨front, t, back, hts, hfront, hfrom, hev, htrig, ?_⟩
  intro a b ha hb
  have hmk := make_transition_valid t a b (hfrom.trans ha) hb
  refine ⟨by rw [hmk, hb], ?_⟩
  rw [htrig, hmk, hb]

/-- Claim C4.  If no registered plain transition has both `state_from` equal to the
current state and `event` equal to `e`, then `trigger(e)` returns with the engine
unchanged (current state included) and without any effect: no hook is invoked. -/
theorem trigger_without_match (f : Fsm) (e : Int)
    (hno : ∀ u ∈ f.m_transitions, ¬ (u.state_from = f.m_current_state ∧ u.event = e)) :
    f.trigger e = some (f, []) :=
  trigger_no_match f e hno

theorem trigger_fires_first_match_witness :
    (∃ u ∈ sample_plain.m_transitions,
        u.state_from = sample_plain.m_current_state ∧ u.event = 7)
    ∧ sample_plain.trigger 7
        = some ({ sample_plain with m_current_state := some 2 },
            [Effect.on_exit 1, Effect.on_transition (sample_transition 1 2 7),
             Effect.on_enter 2])
    ∧ ∃ front t back, sample_plain.m_transitions = front ++ t :: back
      ∧ (∀ u ∈ front, ¬ (u.state_from = sample_plain.m_current_state ∧ u.event = 7))
      ∧ t.state_from = sample_plain.m_current_state ∧ t.event = 7
      ∧ sample_plain.trigger 7
          = (match t.make_transition with
             | none => none
             | some (s, tr) => some ({ sample_plain with m_current_state := s }, tr))
      ∧ ∀ a b, sample_plain.m_current_state = some a → t.state_to = some b →
          t.make_transition
            = some (t.state_to, if a = b then [Effect.on_transition t]
                else [Effect.on_exit a, Effect.on_transition t, Effect.on_enter b])
          ∧ sample_plain.trigger 7
            = some ({ sample_plain with m_current_state := t.state_to },
                if a = b then [Effect.on_transition t]
                else [Effect.on_exit a, Effect.on_transition t, Effect.on_enter b]) :=
  ⟨by decide, by decide, trigger_fires_first_match sample_plain 7 (by decide)⟩

theorem trigger_without_match_witness :
    (∀ u ∈ sample_plain.m_transitions,
        ¬ (u.state_from = sample_plain.m_current_state ∧ u.event = 8))
    ∧ sample_plain.trigger 8 = some (sample_plain, []) :=
  ⟨by decide, trigger_without_match sample_plain 8 (by decide)⟩

/-! ## Claims on `check_timer` -/

theorem dwell_polls_hold (w : Nat) (src : StatePtr) (tt : TimedTransition) (rs : List Nat)
    (hsrc : tt.transition.state_from = src) (hstart : tt.start ≠ 0)
    (hrs : ∀ x ∈ rs, ulong_sub w x tt.start < tt.interval) :
    dwell_polls w src rs tt = some (tt, rs.map Effect.println) := by
  induction rs with
  | nil => rfl
  | cons x xs ih =>
    have hx : ulong_sub w x tt.start < tt.interval := hrs x (by simp)
    have hxs : ∀ y ∈ xs, ulong_sub w y tt.start < tt.interval :=
      fun y hy => hrs y (by simp [hy])
    simp [dwell_polls, check_timer_entry_hold w x src tt hsrc hstart hx, ih hxs]

theorem dwell_polls_arm_hold (w : Nat) (src : StatePtr) (tt : TimedTransition) (r1 : Nat)
    (rs : List Nat) (hsrc : tt.transition.state_from = src) (hunset : tt.start = 0)
    (hr1 : r1 ≠ 0) (hrs : ∀ x ∈ rs, ulong_sub w x r1 < tt.interval) :
    dwell_polls w src (r1 :: rs) tt = some ({ tt with start := r1 }, rs.map Effect.println) := by
  have hheld := dwell_polls_hold w src { tt with start := r1 } rs hsrc hr1 hrs
  simp [dwell_polls, check_timer_entry_arm w r1 src tt hsrc hunset, hheld]

theorem check_timer_entry_fire_valid (w now : Nat) (tt : TimedTransition) (a b : State)
    (hfrom : tt.transition.state_from = some a) (hto : tt.transition.state_to = some b)
    (hstart : tt.start ≠ 0) (hge : tt.interval ≤ ulong_sub w now tt.start) :
    check_timer_entry w now (some a) tt
      = some ({ tt with start := 0 }, some b,
          Effect.println now ::
            (if a = b then [Effect.on_transition tt.transition]
             else [Effect.on_exit a, Effect.on_transition tt.transition, Effect.on_enter b])) := by
  rw [check_timer_entry_fire w now (some a) tt hfrom hstart hge,
    make_transition_valid tt.transition a b hfrom hto]

/-- Claim C5 (counterexample).  Two runs in which the interval does not run from the
first poll that saw the source state current.

First: one timed transition from state 1 to state 2 with interval 100, unset, state
1 current; polls at the readings 0, 50 and 100.  The poll at 100 is the first whose
reading is at least the interval after the reading 0 of the first poll, yet after
it the engine is still in state 1 and no hook was invoked: the poll at 0 stored 0,
the unset marker, and the entry was armed by the poll at 50.

Second: a timed transition from state 1 to state 3 with interval 100 is armed by a
poll at reading 5; `trigger(7)` moves the engine to state 2 and `trigger(8)` back to
state 1, neither touching the start-timestamp.  The first poll of the new stay in
state 1, at reading 1000, fires the entry at once, although its reading is 0 after
itself. -/
theorem timed_interval_not_from_first_poll :
    (sample_dwell.m_current_state = some 1
      ∧ sample_dwell.m_timed_transitions = [sample_timed 1 2 100 0]
      ∧ 100 ≤ ulong_sub 32 100 0
      ∧ check_timer_polls 32 [fun _ => 0, fun _ => 50, fun _ => 100] sample_dwell
          = some ({ sample_dwell with m_timed_transitions := [sample_timed 1 2 100 50] },
              [Effect.println 100]))
    ∧ (sample_return.m_current_state = some 1
      ∧ sample_return.m_timed_transitions = [sample_timed 1 3 100 0]
      ∧ sample_return.check_timer 32 (fun _ => 5) = some (sample_return_armed, [])
      ∧ sample_return_armed.trigger 7
          = some ({ sample_return_armed with m_current_state := some 2 },
              [Effect.on_exit 1, Effect.on_transition (sample_transition 1 2 7),
               Effect.on_enter 2])
      ∧ ({ sample_return_armed with m_current_state := some 2 }).trigger 8
          = some (sample_return_armed,
              [Effect.on_exit 2, Effect.on_transition (sample_transition 2 1 8),
               Effect.on_enter 1])
      ∧ ulong_sub 32 1000 1000 < 100
      ∧ sample_return_armed.check_timer 32 (fun _ => 1000)
          = some ({ sample_return with m_current_state := some 3 },
              [Effect.println 1000, Effect.on_exit 1,
               Effect.on_transition (sample_transition 1 3 0), Effect.on_enter 3])) := by
  decide

/-- Claim C5 (amended).  A timed entry from state `a` to state `b` whose
start-timestamp is unset when the polls begin, polled while `a` stays current.  If
the reading `r1` of the first poll is not 0, that poll sets the start-timestamp to
`r1`; on the later polls whose reading is less than the interval after `r1` (modulo
`2 ^ w`) the entry does not fire, the only effect being the `Serial.println` of each
reading; on the first later poll whose reading is at least the interval after `r1`
it fires: its start-timestamp is reset, the state is `b` and the hooks are those of
`make_transition`. -/
theorem timed_fires_after_interval (w : Nat) (tt : TimedTransition) (a b : State)
    (r1 : Nat) (rs : List Nat) (r : Nat)
    (hfrom : tt.transition.state_from = some a) (hto : tt.transition.state_to = some b)
    (hunset : tt.start = 0) (hr1 : r1 ≠ 0)
    (hrs : ∀ x ∈ rs, ulong_sub w x r1 < tt.interval)
    (hr : tt.interval ≤ ulong_sub w r r1) :
    dwell_polls w (some a) (r1 :: rs) tt
      = some ({ tt with start := r1 }, rs.map Effect.println)
    ∧ (∀ x ∈ rs, fired tt.transition
          (check_timer_entry w x (some a) { tt with start := r1 }) = false)
    ∧ fired tt.transition (check_timer_entry w r (some a) { tt with start := r1 }) = true
    ∧ check_timer_entry w r (some a) { tt with start := r1 }
      = some ({ tt with start := 0 }, some b,
          Effect.println r ::
            (if a = b then [Effect.on_transition tt.transition]
             else [Effect.on_exit a, Effect.on_transition tt.transition, Effect.on_enter b])) := by
  have hfire := check_timer_entry_fire_valid w r { tt with start := r1 } a b hfrom hto hr1 hr
  refine ⟨dwell_polls_arm_hold w (some a) tt r1 rs hfrom hunset hr1 hrs, ?_, ?_, hfire⟩
  · intro x hx
    rw [check_timer_entry_hold w x (some a) { tt with start := r1 } hfrom hr1 (hrs x hx)]
    simp [fired]
  · rw [hfire]
    by_cases hab : a = b <;> simp [fired, hab]

theorem timed_fires_after_interval_witness :
    dwell_polls 32 (some 1) [5, 50, 104] (sample_timed 1 2 100 0)
      = some (sample_timed 1 2 100 5, [Effect.println 50, Effect.println 104])
    ∧ (∀ x ∈ [50, 104], fired (sample_transition 1 2 0)
          (check_timer_entry 32 x (some 1) (sample_timed 1 2 100 5)) = false)
    ∧ fired (sample_transition 1 2 0)
        (check_timer_entry 32 105 (some 1) (sample_timed 1 2 100 5)) = true
    ∧ check_timer_entry 32 105 (some 1) (sample_timed 1 2 100 5)
      = some (sample_timed 1 2 100 0, some 2,
          Effect.println 105 ::
            (if 1 = 2 then [Effect.on_transition (sample_transition 1 2 0)]
             else [Effect.on_exit 1, Effect.on_transition (sample_transition 1 2 0),
               Effect.on_enter 2])) :=
  timed_fires_after_interval 32 (sample_timed 1 2 100 0) 1 2 5 [50, 104] 105 rfl rfl rfl
    (by decide) (by decide) (by decide)

/-- Claim C6 (counterexample).  Two unset timed entries whose source state 1 is
current, the first of interval 0.  One `check_timer` call at reading 7 sets the
start-timestamp of the first and does not return: it goes on to the second entry
and sets its start-timestamp too. -/
theorem check_timer_arms_both :
    sample_pair.m_current_state = some 1
    ∧ sample_pair.m_timed_transitions = [sample_timed 1 2 0 0, sample_timed 1 3 50 0]
    ∧ sample_pair.check_timer 32 (fun _ => 7)
        = some ({ sample_pair with
                    m_timed_transitions := [sample_timed 1 2 0 7, sample_timed 1 3 50 7] },
            []) := by
  decide

/-- Claim C6 (amended).  When `check_timer` reaches an entry whose source state is the
current state and whose start-timestamp is unset, it sets that entry's
start-timestamp to the clock reading and does not fire it on this poll, whatever
its interval: the iteration has no effect and leaves the current state as it is.
The call does not return there: it goes on with the later entries, from the same
current state. -/
theorem check_timer_arms_and_continues (w : Nat) (millis : Nat → Nat) (f : Fsm)
    (front : List TimedTransition) (tt : TimedTransition) (back : List TimedTransition)
    (front' : List TimedTransition) (c1 : StatePtr) (tr1 : List Effect)
    (hts : f.m_timed_transitions = front ++ tt :: back)
    (hfront : check_timer_loop w millis 0 f.m_current_state front = some (front', c1, tr1))
    (hsrc : tt.transition.state_from = c1) (hunset : tt.start = 0) :
    check_timer_entry w (millis front.length) c1 tt
      = some ({ tt with start := millis front.length }, c1, [])
    ∧ fired tt.transition (check_timer_entry w (millis front.length) c1 tt) = false
    ∧ f.check_timer w millis
      = (match check_timer_loop w millis (front.length + 1) c1 back with
         | none => none
         | some (back', c3, tr3) =>
           some ({ f with
                     m_current_state := c3,
                     m_timed_transitions :=
                       front' ++ { tt with start := millis front.length } :: back' },
                 tr1 ++ tr3)) := by
  have harm := check_timer_entry_arm w (millis front.length) c1 tt hsrc hunset
  refine ⟨harm, by simp [harm, fired], ?_⟩
  rw [check_timer_at w millis f front tt back front' c1 tr1 hts hfront, harm]
  simp

theorem check_timer_arms_and_continues_witness :
    check_timer_entry 32 7 (some 1) (sample_timed 1 2 0 0)
      = some ({ sample_timed 1 2 0 0 with start := 7 }, some 1, [])
    ∧ fired (sample_timed 1 2 0 0).transition
        (check_timer_entry 32 7 (some 1) (sample_timed 1 2 0 0)) = false
    ∧ sample_pair.check_timer 32 (fun _ => 7)
      = (match check_timer_loop 32 (fun _ => 7) 1 (some 1) [sample_timed 1 3 50 0] with
         | none => none
         | some (back', c3, tr3) =>
           some ({ sample_pair with
                     m_current_state := c3,
                     m_timed_transitions :=
                       [] ++ { sample_timed 1 2 0 0 with start := 7 } :: back' },
                 [] ++ tr3)) :=
  check_timer_arms_and_continues 32 (fun _ => 7) sample_pair [] (sample_timed 1 2 0 0)
    [sample_timed 1 3 50 0] [] (some 1) [] rfl rfl rfl rfl

theorem ulong_sub_mod_of_le (w T Ta : Nat) (h : Ta ≤ T) :
    ulong_sub w (T % 2 ^ w) (Ta % 2 ^ w) = (T - Ta) % 2 ^ w := by
  have hM : 0 < 2 ^ w := Nat.two_pow_pos w
  have hlt : Ta % 2 ^ w < 2 ^ w := Nat.mod_lt _ hM
  unfold ulong_sub
  have key : (T % 2 ^ w + 2 ^ w - Ta % 2 ^ w) + Ta % 2 ^ w ≡ (T - Ta) + Ta % 2 ^ w [MOD 2 ^ w] := by
    have e1 : (T % 2 ^ w + 2 ^ w - Ta % 2 ^ w) + Ta % 2 ^ w = T % 2 ^ w + 2 ^ w := by omega
    rw [e1]
    have e2 : T % 2 ^ w + 2 ^ w ≡ T [MOD 2 ^ w] := by
      have : T % 2 ^ w + 2 ^ w ≡ T % 2 ^ w + 0 [MOD 2 ^ w] :=
        Nat.ModEq.add_left _ (by simp [Nat.ModEq])
      exact this.trans (Nat.mod_modEq T (2 ^ w))
    have e3 : (T - Ta) + Ta % 2 ^ w ≡ (T - Ta) + Ta [MOD 2 ^ w] :=
      Nat.ModEq.add_left _ (Nat.mod_modEq Ta (2 ^ w))
    have e4 : (T - Ta) + Ta = T := by omega
    rw [e4] at e3
    exact e2.trans e3.symm
  exact Nat.ModEq.add_right_cancel' _ key

theorem dwell_polls_no_early_fire (w : Nat) (src : StatePtr) (T0 I : Nat) :
    ∀ (Ts : List Nat) (tt : TimedTransition),
      tt.transition.state_from = src → tt.interval = I →
      (∀ T ∈ Ts, T0 ≤ T ∧ T < T0 + I) → Ts.Pairwise (· ≤ ·) →
      (tt.start = 0 ∨ ∃ Ta, T0 ≤ Ta ∧ (∀ T ∈ Ts, Ta ≤ T) ∧ tt.start = Ta % 2 ^ w) →
      ∃ tt' tr, dwell_polls w src (Ts.map (· % 2 ^ w)) tt = some (tt', tr)
        ∧ (∀ e ∈ tr, ∃ n, e = Effect.println n) := by
  intro Ts
  induction Ts with
  | nil =>
    intro tt _ _ _ _ _
    exact ⟨tt, [], rfl, by simp⟩
  | cons T Ts ih =>
    intro tt hsrc hI hrange hsorted harmed
    have hT := hrange T (by simp)
    have hrange' : ∀ T' ∈ Ts, T0 ≤ T' ∧ T' < T0 + I := fun T' h' => hrange T' (by simp [h'])
    have hsorted' : Ts.Pairwise (· ≤ ·) := (List.pairwise_cons.mp hsorted).2
    have hhead : ∀ T' ∈ Ts, T ≤ T' := (List.pairwise_cons.mp hsorted).1
    by_cases hstart : tt.start = 0
    · -- the poll arms the entry
      have hstep := check_timer_entry_arm w (T % 2 ^ w) src tt hsrc hstart
      obtain ⟨tt', tr, hrun, htr⟩ := ih { tt with start := T % 2 ^ w } hsrc hI hrange' hsorted'
        (Or.inr ⟨T, hT.1, hhead, rfl⟩)
      refine ⟨tt', tr, ?_, htr⟩
      simp [dwell_polls, hstep, hrun]
    · -- the entry is armed: the interval has not elapsed
      rcases harmed with h0 | ⟨Ta, hTa0, hTa, hTaeq⟩
      · exact absurd h0 hstart
      · have hle : Ta ≤ T := hTa T (by simp)
        have hsub : ulong_sub w (T % 2 ^ w) tt.start < tt.interval := by
          rw [hTaeq, ulong_sub_mod_of_le w T Ta hle, hI]
          have := Nat.mod_le (T - Ta) (2 ^ w)
          omega
        have hstep := check_timer_entry_hold w (T % 2 ^ w) src tt hsrc hstart hsub
        obtain ⟨tt', tr, hrun, htr⟩ := ih tt hsrc hI hrange' hsorted'
          (Or.inr ⟨Ta, hTa0, fun T' h' => hTa T' (by simp [h']), hTaeq⟩)
        refine ⟨tt', Effect.println (T % 2 ^ w) :: tr, ?_, ?_⟩
        · simp [dwell_polls, hstep, hrun]
        · intro e he
          rcases List.mem_cons.mp he with rfl | he'
          · exact ⟨_, rfl⟩
          · exact htr e he'

theorem dwell_polls_fresh_interval (w : Nat) (src : StatePtr) (tt : TimedTransition)
    (T0 : Nat) (Ts : List Nat) (hsrc : tt.transition.state_from = src)
    (hunset : tt.start = 0) (hsorted : (T0 :: Ts).Pairwise (· ≤ ·))
    (hearly : ∀ T ∈ Ts, T < T0 + tt.interval) :
    ∃ tt' tr, dwell_polls w src ((T0 :: Ts).map (· % 2 ^ w)) tt = some (tt', tr)
      ∧ (∀ e ∈ tr, ∃ n, e = Effect.println n) := by
  have hhead : ∀ T ∈ Ts, T0 ≤ T := (List.pairwise_cons.mp hsorted).1
  have hstep := check_timer_entry_arm w (T0 % 2 ^ w) src tt hsrc hunset
  obtain ⟨tt', tr, hrun, htr⟩ :=
    dwell_polls_no_early_fire w src T0 tt.interval Ts { tt with start := T0 % 2 ^ w } hsrc rfl
      (fun T hT => ⟨hhead T hT, hearly T hT⟩) (List.pairwise_cons.mp hsorted).2
      (Or.inr ⟨T0, Nat.le_refl T0, hhead, rfl⟩)
  refine ⟨tt', tr, ?_, htr⟩
  simp [dwell_polls, hstep, hrun]

theorem dwell_polls_zero_readings (w : Nat) (src : StatePtr) (tt : TimedTransition)
    (k : Nat) (rest : List Nat) (hsrc : tt.transition.state_from = src)
    (hunset : tt.start = 0) :
    dwell_polls w src (List.replicate k 0 ++ rest) tt = dwell_polls w src rest tt := by
  induction k with
  | zero => rfl
  | succ k ih =>
    have hsame : ({ tt with start := 0 } : TimedTransition) = tt := by
      cases tt
      simp only [TimedTransition.mk.injEq, true_and, and_true]
      exact hunset.symm
    rw [List.replicate_succ, List.cons_append, dwell_polls,
      check_timer_entry_arm w 0 src tt hsrc hunset]
    simp only [hsame, ih]
    rcases dwell_polls w src rest tt with _ | ⟨tt', tr'⟩ <;> simp

/-- Claim C7 (counterexample).  A timed self-loop on state 1 with interval 100; the
clock is a 32-bit counter.  Polls at the readings 4294967000 and 4294967200 arm the
entry and fire it, which resets its start-timestamp.  The source state is still
current; the first poll after the firing reads 0 (the counter has wrapped) and does
not re-arm the entry: it stores 0, the unset marker, and leaves the engine as it
was.  The entry is armed by the next poll, at reading 50, and therefore does not
fire at reading 100, where an entry armed at reading 0 would fire. -/
theorem rearm_poll_at_zero_leaves_unset :
    sample_refresh.m_current_state = some 1
    ∧ sample_refresh.m_timed_transitions = [sample_timed 1 1 100 0]
    ∧ check_timer_polls 32 [fun _ => 4294967000, fun _ => 4294967200] sample_refresh
        = some (sample_refresh,
            [Effect.println 4294967200, Effect.on_transition (sample_transition 1 1 0)])
    ∧ sample_refresh.check_timer 32 (fun _ => 0) = some (sample_refresh, [])
    ∧ check_timer_polls 32 [fun _ => 0, fun _ => 50] sample_refresh
        = some ({ sample_refresh with m_timed_transitions := [sample_timed 1 1 100 50] }, [])
    ∧ 100 ≤ ulong_sub 32 100 0
    ∧ check_timer_polls 32 [fun _ => 0, fun _ => 50, fun _ => 100] sample_refresh
        = some ({ sample_refresh with m_timed_transitions := [sample_timed 1 1 100 50] },
            [Effect.println 100]) := by
  decide

/-- Claim C7 (amended).  When `check_timer` reaches an armed entry from state `a` to
state `b` while `a` is current and the interval has elapsed, it fires it: the
current state becomes the result of its `make_transition`, with which the later
entries of the call are examined, and the entry's start-timestamp is reset to unset.
Consequently, the next time the entry is reached while `a` is current, that poll
stores its clock reading as start-timestamp without firing.  A poll that reads 0
stores the unset marker and so leaves the entry unset; the first poll whose reading
`r` is not 0 arms it with `r`, and it cannot fire until a full interval has elapsed
from that reading: the start-timestamp stays `r` and nothing but `Serial.println`
happens on every poll whose reading is less than the interval after `r`.  Nor does
it fire before a full interval of true time has elapsed from the first poll: with
readings of a clock that counts true time modulo `2 ^ w`, no poll at a time less
than the interval after that poll fires it. -/
theorem check_timer_fire_resets (w : Nat) (millis : Nat → Nat) (f : Fsm)
    (front : List TimedTransition) (tt : TimedTransition) (back : List TimedTransition)
    (front' : List TimedTransition) (tr1 : List Effect) (a b : State)
    (hts : f.m_timed_transitions = front ++ tt :: back)
    (hfront : check_timer_loop w millis 0 f.m_current_state front = some (front', some a, tr1))
    (hfrom : tt.transition.state_from = some a) (hto : tt.transition.state_to = some b)
    (hstart : tt.start ≠ 0)
    (hge : tt.interval ≤ ulong_sub w (millis front.length) tt.start) :
    tt.transition.make_transition
      = some (some b,
          if a = b then [Effect.on_transition tt.transition]
          else [Effect.on_exit a, Effect.on_transition tt.transition, Effect.on_enter b])
    ∧ f.check_timer w millis
      = (match check_timer_loop w millis (front.length + 1) (some b) back with
         | none => none
         | some (back', c3, tr3) =>
           some ({ f with
                     m_current_state := c3,
                     m_timed_transitions := front' ++ { tt with start := 0 } :: back' },
                 tr1 ++ (Effect.println (millis front.length) ::
                    (if a = b then [Effect.on_transition tt.transition]
                     else [Effect.on_exit a, Effect.on_transition tt.transition,
                       Effect.on_enter b])) ++ tr3))
    ∧ (∀ r, check_timer_entry w r (some a) { tt with start := 0 }
          = some ({ tt with start := r }, some a, []))
    ∧ (∀ (T0 : Nat) (Ts : List Nat), (T0 :: Ts).Pairwise (· ≤ ·) →
        (∀ T ∈ Ts, T < T0 + tt.interval) →
        ∃ tt' tr, dwell_polls w (some a) ((T0 :: Ts).map (· % 2 ^ w)) { tt with start := 0 }
            = some (tt', tr)
          ∧ (∀ e ∈ tr, ∃ n, e = Effect.println n))
    ∧ (∀ (k r : Nat) (rs : List Nat), r ≠ 0 →
        (∀ x ∈ rs, ulong_sub w x r < tt.interval) →
        dwell_polls w (some a) (List.replicate k 0 ++ r :: rs) { tt with start := 0 }
          = some ({ tt with start := r }, rs.map Effect.println)) := by
  refine ⟨make_transition_valid tt.transition a b hfrom hto, ?_, ?_, ?_, ?_⟩
  · rw [check_timer_at w millis f front tt back front' (some a) tr1 hts hfront,
      check_timer_entry_fire_valid w _ tt a b hfrom hto hstart hge]
  · intro r
    exact check_timer_entry_arm w r (some a) { tt with start := 0 } hfrom rfl
  · intro T0 Ts hsorted hearly
    exact dwell_polls_fresh_interval w (some a) { tt with start := 0 } T0 Ts hfrom rfl
      hsorted hearly
  · intro k r rs hr hrs
    rw [dwell_polls_zero_readings w (some a) { tt with start := 0 } k (r :: rs) hfrom rfl]
    exact dwell_polls_arm_hold w (some a) { tt with start := 0 } r rs hfrom rfl hr hrs

theorem check_timer_fire_resets_witness :
    sample_chain.check_timer 32 (fun _ => 200)
      = (match check_timer_loop 32 (fun _ => 200) 1 (some 2) [sample_timed 2 1 30 0] with
         | none => none
         | some (back', c3, tr3) =>
           some ({ sample_chain with
                     m_current_state := c3,
                     m_timed_transitions := [] ++ sample_timed 1 2 100 0 :: back' },
                 [] ++ (Effect.println 200 ::
                    (if 1 = 2 then [Effect.on_transition (sample_transition 1 2 0)]
                     else [Effect.on_exit 1, Effect.on_transition (sample_transition 1 2 0),
                       Effect.on_enter 2])) ++ tr3))
    ∧ sample_chain.check_timer 32 (fun _ => 200)
      = some ({ sample_chain with
                  m_current_state := some 2,
                  m_timed_transitions := [sample_timed 1 2 100 0, sample_timed 2 1 30 200] },
              [Effect.println 200, Effect.on_exit 1,
               Effect.on_transition (sample_transition 1 2 0), Effect.on_enter 2])
    ∧ dwell_polls 32 (some 1) (List.replicate 2 0 ++ [300, 350, 399])
        (sample_timed 1 2 100 0)
      = some (sample_timed 1 2 100 300, [Effect.println 350, Effect.println 399]) :=
  ⟨(check_timer_fire_resets 32 (fun _ => 200) sample_chain [] (sample_timed 1 2 100 5)
      [sample_timed 2 1 30 0] [] [] 1 2 rfl rfl rfl rfl (by decide) (by decide)).2.1,
   by decide,
   (check_timer_fire_resets 32 (fun _ => 200) sample_chain [] (sample_timed 1 2 100 5)
      [sample_timed 2 1 30 0] [] [] 1 2 rfl rfl rfl rfl (by decide) (by decide)).2.2.2.2
      2 300 [350, 399] (by decide) (by decide)⟩

theorem ulong_sub_eq_emod (w now s : Nat) (hs : s < 2 ^ w) :
    ((ulong_sub w now s : Nat) : Int) = ((now : Int) - (s : Int)) % (2 : Int) ^ w := by
  unfold ulong_sub
  have hle : s ≤ now + 2 ^ w := le_trans (le_of_lt hs) (Nat.le_add_left _ _)
  rw [Int.natCast_mod, Nat.cast_sub hle]
  push_cast
  have : (now : Int) + 2 ^ w - s = (now - s) + 2 ^ w := by ring
  rw [this, Int.add_emod_self]

theorem ulong_sub_wrapped (w now s : Nat) (hwrap : now < s) :
    ulong_sub w now s = now + 2 ^ w - s := by
  unfold ulong_sub
  have hM : 0 < 2 ^ w := Nat.two_pow_pos w
  exact Nat.mod_eq_of_lt (by omega)

theorem ulong_sub_plain (w now s : Nat) (hnow : now < 2 ^ w) (hle : s ≤ now) :
    ulong_sub w now s = now - s := by
  unfold ulong_sub
  have : now + 2 ^ w - s = (now - s) + 2 ^ w := by omega
  rw [this, Nat.add_mod_right]
  exact Nat.mod_eq_of_lt (by omega)

theorem fired_iff_elapsed (w now : Nat) (tt : TimedTransition) (a b : State)
    (hfrom : tt.transition.state_from = some a) (hto : tt.transition.state_to = some b)
    (hset : tt.start ≠ 0) :
    fired tt.transition (check_timer_entry w now (some a) tt) = true
      ↔ tt.interval ≤ ulong_sub w now tt.start := by
  by_cases hge : tt.interval ≤ ulong_sub w now tt.start
  · rw [check_timer_entry_fire_valid w now tt a b hfrom hto hset hge]
    by_cases hab : a = b <;> simp [fired, hab, hge]
  · rw [check_timer_entry_hold w now (some a) tt hfrom hset (Nat.not_le.mp hge)]
    simp [fired, hge]

/-- Claim C9.  The elapsed-time test of `check_timer` on `w`-bit clock values.  An
armed entry (start-timestamp `s` set) reached while its source state is current
fires iff `(now - s) mod 2 ^ w >= interval`, the difference being taken in the
integers.  In particular, when the counter has wrapped once since arming
(`now < s`) it fires exactly when the true elapsed time `now + 2 ^ w - s` is at
least the interval, and without a wrap (`s <= now`) exactly when `now - s` is. -/
theorem elapsed_test_wraparound_safe (w now : Nat) (tt : TimedTransition) (a b : State)
    (hfrom : tt.transition.state_from = some a) (hto : tt.transition.state_to = some b)
    (hset : tt.start ≠ 0) (hs : tt.start < 2 ^ w) (hnow : now < 2 ^ w) :
    (fired tt.transition (check_timer_entry w now (some a) tt) = true
      ↔ (tt.interval : Int) ≤ ((now : Int) - (tt.start : Int)) % (2 : Int) ^ w)
    ∧ (now < tt.start →
        (fired tt.transition (check_timer_entry w now (some a) tt) = true
          ↔ tt.interval ≤ now + 2 ^ w - tt.start))
    ∧ (tt.start ≤ now →
        (fired tt.transition (check_timer_entry w now (some a) tt) = true
          ↔ tt.interval ≤ now - tt.start)) := by
  have hiff := fired_iff_elapsed w now tt a b hfrom hto hset
  refine ⟨?_, ?_, ?_⟩
  · rw [hiff, ← ulong_sub_eq_emod w now tt.start hs]
    exact Int.ofNat_le.symm
  · intro hwrap
    rw [hiff, ulong_sub_wrapped w now tt.start hwrap]
  · intro hle
    rw [hiff, ulong_sub_plain w now tt.start hnow hle]

theorem elapsed_test_wraparound_safe_witness :
    (fired (sample_transition 1 2 0)
        (check_timer_entry 32 40 (some 1) (sample_timed 1 2 100 4294967240)) = true
      ↔ ((100 : Nat) : Int) ≤ (((40 : Nat) : Int) - ((4294967240 : Nat) : Int)) % (2 : Int) ^ 32)
    ∧ (40 < 4294967240 →
        (fired (sample_transition 1 2 0)
            (check_timer_entry 32 40 (some 1) (sample_timed 1 2 100 4294967240)) = true
          ↔ 100 ≤ 40 + 2 ^ 32 - 4294967240))
    ∧ (4294967240 ≤ 40 →
        (fired (sample_transition 1 2 0)
            (check_timer_entry 32 40 (some 1) (sample_timed 1 2 100 4294967240)) = true
          ↔ 100 ≤ 40 - 4294967240)) :=
  elapsed_test_wraparound_safe 32 40 (sample_timed 1 2 100 4294967240) 1 2 rfl rfl
    (by decide) (by decide) (by decide)

/-- Claim C10.  Invalid registration input is dropped: the four-argument
`add_transition` and `add_timed_transition` with a `NULL` source or destination
state, and `add_transition(transition)` and `add_timed_transition(interval,
transition)` with a `NULL` transition, return the engine as it was: same current
state, same two tables.  (Registration calls no hook on any path, which is why the
registration functions have no effect list.) -/
theorem invalid_registration_dropped (f : Fsm) :
    (∀ (state_to : StatePtr) (event : Int) (cb : Callback),
        f.add_transition none state_to event cb = f)
    ∧ (∀ (state_from : StatePtr) (event : Int) (cb : Callback),
        f.add_transition state_from none event cb = f)
    ∧ (∀ (state_to : StatePtr) (interval : Nat) (cb : Callback),
        f.add_timed_transition none state_to interval cb = f)
    ∧ (∀ (state_from : StatePtr) (interval : Nat) (cb : Callback),
        f.add_timed_transition state_from none interval cb = f)
    ∧ f.add_transition_obj none = f
    ∧ (∀ interval : Nat, f.add_timed_transition_obj interval none = f) := by
  refine ⟨?_, ?_, ?_, ?_, rfl, fun _ => rfl⟩
  · intro state_to event cb
    simp [Fsm.add_transition]
  · intro state_from event cb
    simp [Fsm.add_transition]
  · intro state_to interval cb
    simp [Fsm.add_timed_transition]
  · intro state_from interval cb
    simp [Fsm.add_timed_transition]

/-! ## Start-timestamps in reachable states -/

theorem make_transition_result (t : Transition) (s : StatePtr) (tr : List Effect)
    (h : t.make_transition = some (s, tr)) :
    s = t.state_to ∧ (s = t.state_from ∨ ∃ b, s = some b ∧ Effect.on_enter b ∈ tr) := by
  obtain ⟨sf, st, e, d, cb⟩ := t
  cases sf with
  | none =>
    cases st with
    | none =>
      simp [Transition.make_transition, Transition.on_transition] at h
      simp [h.1]
    | some b => simp [Transition.make_transition, on_exit] at h
  | some a =>
    cases st with
    | none => simp [Transition.make_transition, on_exit, on_enter] at h
    | some b =>
      by_cases hab : a = b
      · simp [Transition.make_transition, Transition.on_transition, hab] at h
        simp [h.1, hab]
      · simp [Transition.make_transition, Transition.on_transition, hab, on_exit,
          on_enter] at h
        simp [← h.1, ← h.2]

theorem trigger_loop_result (cur : StatePtr) (event : Int) (ts : List Transition)
    (s : StatePtr) (tr : List Effect) (h : trigger_loop cur event ts = some (s, tr)) :
    (s = cur ∧ tr = []) ∨
      ∃ t ∈ ts, t.state_from = cur ∧ t.make_transition = some (s, tr) := by
  induction ts with
  | nil =>
    simp only [trigger_loop, Option.some.injEq, Prod.mk.injEq] at h
    exact Or.inl ⟨h.1.symm, h.2.symm⟩
  | cons u us ih =>
    by_cases hu : u.state_from = cur ∧ u.event = event
    · simp only [trigger_loop, if_pos hu] at h
      exact Or.inr ⟨u, by simp, hu.1, h⟩
    · simp only [trigger_loop, if_neg hu] at h
      rcases ih h with hsame | ⟨t, ht, hfrom, hmk⟩
      · exact Or.inl hsame
      · exact Or.inr ⟨t, by simp [ht], hfrom, hmk⟩

theorem trigger_result (f f' : Fsm) (event : Int) (tr : List Effect)
    (h : f.trigger event = some (f', tr)) :
    f'.m_transitions = f.m_transitions ∧ f'.m_timed_transitions = f.m_timed_transitions
      ∧ (f'.m_current_state = f.m_current_state
          ∨ ∃ b, f'.m_current_state = some b ∧ Effect.on_enter b ∈ tr) := by
  unfold Fsm.trigger at h
  cases hloop : trigger_loop f.m_current_state event f.m_transitions with
  | none => simp [hloop] at h
  | some r =>
    obtain ⟨s, tr0⟩ := r
    simp only [hloop, Option.some.injEq, Prod.mk.injEq] at h
    obtain ⟨hf, htr⟩ := h
    subst hf; subst htr
    refine ⟨rfl, rfl, ?_⟩
    rcases trigger_loop_result _ _ _ _ _ hloop with ⟨hs, _⟩ | ⟨t, _, hfrom, hmk⟩
    · exact Or.inl hs
    · rcases (make_transition_result t s tr0 hmk).2 with hs | hent
      · exact Or.inl (hs.trans hfrom)
      · exact Or.inr hent

theorem check_timer_entry_result (w now : Nat) (cur : StatePtr) (tt tt' : TimedTransition)
    (c' : StatePtr) (tr : List Effect)
    (h : check_timer_entry w now cur tt = some (tt', c', tr)) :
    tt'.transition = tt.transition ∧ tt'.interval = tt.interval
      ∧ (c' = cur ∨ ∃ b, c' = some b ∧ Effect.on_enter b ∈ tr)
      ∧ (tt'.start ≠ 0 → tt.start ≠ 0 ∨ tt.transition.state_from = cur) := by
  by_cases hsrc : tt.transition.state_from = cur
  · by_cases hstart : tt.start = 0
    · rw [check_timer_entry_arm w now cur tt hsrc hstart] at h
      simp only [Option.some.injEq, Prod.mk.injEq] at h
      obtain ⟨h1, h2, _⟩ := h
      subst h1; subst h2
      exact ⟨rfl, rfl, Or.inl rfl, fun _ => Or.inr hsrc⟩
    · by_cases hge : tt.interval ≤ ulong_sub w now tt.start
      · rw [check_timer_entry_fire w now cur tt hsrc hstart hge] at h
        cases hmk : tt.transition.make_transition with
        | none => simp [hmk] at h
        | some r =>
          obtain ⟨s, tr0⟩ := r
          simp only [hmk, Option.some.injEq, Prod.mk.injEq] at h
          obtain ⟨h1, h2, h3⟩ := h
          subst h1; subst h2; subst h3
          refine ⟨rfl, rfl, ?_, fun _ => Or.inr hsrc⟩
          rcases (make_transition_result tt.transition s tr0 hmk).2 with hs | ⟨b, hb, hin⟩
          · exact Or.inl (hs.trans hsrc)
          · exact Or.inr ⟨b, hb, by simp [hin]⟩
      · rw [check_timer_entry_hold w now cur tt hsrc hstart (Nat.not_le.mp hge)] at h
        simp only [Option.some.injEq, Prod.mk.injEq] at h
        obtain ⟨h1, h2, _⟩ := h
        subst h1; subst h2
        exact ⟨rfl, rfl, Or.inl rfl, fun _ => Or.inl hstart⟩
  · rw [check_timer_entry_other w now cur tt hsrc] at h
    simp only [Option.some.injEq, Prod.mk.injEq] at h
    obtain ⟨h1, h2, _⟩ := h
    subst h1; subst h2
    exact ⟨rfl, rfl, Or.inl rfl, fun hne => Or.inl hne⟩

theorem check_timer_loop_result (w : Nat) (millis : Nat → Nat) :
    ∀ (tts : List TimedTransition) (i : Nat) (cur : StatePtr) (tts' : List TimedTransition)
      (c' : StatePtr) (tr : List Effect),
      check_timer_loop w millis i cur tts = some (tts', c', tr) →
      (c' = cur ∨ ∃ b, c' = some b ∧ Effect.on_enter b ∈ tr)
      ∧ ∀ tt' ∈ tts', ∃ tt ∈ tts, tt'.transition = tt.transition
          ∧ tt'.interval = tt.interval
          ∧ (tt'.start ≠ 0 → tt.start ≠ 0 ∨ tt.transition.state_from = cur
              ∨ ∃ b, tt.transition.state_from = some b ∧ Effect.on_enter b ∈ tr) := by
  intro tts
  induction tts with
  | nil =>
    intro i cur tts' c' tr h
    simp only [check_timer_loop, Option.some.injEq, Prod.mk.injEq] at h
    obtain ⟨h1, h2, _⟩ := h
    subst h1; subst h2
    exact ⟨Or.inl rfl, by simp⟩
  | cons tt rest ih =>
    intro i cur tts' c' tr h
    rw [check_timer_loop_cons] at h
    cases hentry : check_timer_entry w (millis i) cur tt with
    | none => simp [hentry] at h
    | some r =>
      obtain ⟨tt1, c1, tra⟩ := r
      cases hrest : check_timer_loop w millis (i + 1) c1 rest with
      | none => simp [hentry, hrest] at h
      | some r2 =>
        obtain ⟨rest', c2, trb⟩ := r2
        simp only [hentry, hrest, Option.some.injEq, Prod.mk.injEq] at h
        obtain ⟨h1, h2, h3⟩ := h
        subst h1; subst h2; subst h3
        obtain ⟨htrans, hint, hc1, hst1⟩ := check_timer_entry_result w _ cur tt tt1 c1 tra hentry
        obtain ⟨hc2, hrestinv⟩ := ih (i + 1) c1 rest' c2 trb hrest
        have hlift : ∀ p : StatePtr, p = c1 →
            p = cur ∨ ∃ b, p = some b ∧ Effect.on_enter b ∈ tra ++ trb := by
          intro p hp
          rcases hc1 with hc | ⟨b, hb, hin⟩
          · exact Or.inl (hp.trans hc)
          · exact Or.inr ⟨b, hp.trans hb, by simp [hin]⟩
        refine ⟨?_, ?_⟩
        · rcases hc2 with hc | ⟨b, hb, hin⟩
          · exact hlift c2 hc
          · exact Or.inr ⟨b, hb, by simp [hin]⟩
        · intro tt' htt'
          rcases List.mem_cons.mp htt' with rfl | hmem
          · refine ⟨tt, by simp, htrans, hint, ?_⟩
            intro hne
            rcases hst1 hne with h0 | hsrc
            · exact Or.inl h0
            · exact Or.inr (Or.inl hsrc)
          · obtain ⟨tt0, htt0, htr0, hint0, hst0⟩ := hrestinv tt' hmem
            refine ⟨tt0, by simp [htt0], htr0, hint0, ?_⟩
            intro hne
            rcases hst0 hne with h0 | hsrc | ⟨b, hb, hin⟩
            · exact Or.inl h0
            · exact Or.inr (hlift _ hsrc)
            · exact Or.inr (Or.inr ⟨b, hb, by simp [hin]⟩)

theorem was_current_append (s0 : StatePtr) (tr tr' : List Effect) (p : StatePtr)
    (h : was_current s0 tr p) : was_current s0 (tr ++ tr') p := by
  rcases h with h | ⟨b, hb, hin⟩
  · exact Or.inl h
  · exact Or.inr ⟨b, hb, by simp [hin]⟩

theorem was_current_of_step (s0 : StatePtr) (tr tr' : List Effect) (p cur : StatePtr)
    (hcur : was_current s0 tr cur)
    (hp : p = cur ∨ ∃ b, p = some b ∧ Effect.on_enter b ∈ tr') :
    was_current s0 (tr ++ tr') p := by
  rcases hp with hp | ⟨b, hb, hin⟩
  · rw [hp]; exact was_current_append s0 tr tr' cur hcur
  · exact Or.inr ⟨b, hb, by simp [hin]⟩

theorem add_transition_obj_frame (f : Fsm) (t : Option Transition) :
    (f.add_transition_obj t).m_current_state = f.m_current_state
      ∧ (f.add_transition_obj t).m_timed_transitions = f.m_timed_transitions := by
  cases t <;> exact ⟨rfl, rfl⟩

theorem add_transition_frame (f : Fsm) (state_from state_to : StatePtr) (event : Int)
    (cb : Callback) :
    (f.add_transition state_from state_to event cb).m_current_state = f.m_current_state
      ∧ (f.add_transition state_from state_to event cb).m_timed_transitions
          = f.m_timed_transitions := by
  unfold Fsm.add_transition
  split
  · exact ⟨rfl, rfl⟩
  · exact add_transition_obj_frame f _

theorem add_timed_transition_obj_frame (f : Fsm) (interval : Nat) (t : Option Transition) :
    (f.add_timed_transition_obj interval t).m_current_state = f.m_current_state
      ∧ ∀ tt ∈ (f.add_timed_transition_obj interval t).m_timed_transitions,
          tt ∈ f.m_timed_transitions ∨ tt.start = 0 := by
  cases t with
  | none => exact ⟨rfl, fun tt h => Or.inl h⟩
  | some t =>
    refine ⟨rfl, ?_⟩
    intro tt h
    simp only [Fsm.add_timed_transition_obj, List.mem_append, List.mem_singleton] at h
    rcases h with h | h
    · exact Or.inl h
    · exact Or.inr (by rw [h])

theorem add_timed_transition_frame (f : Fsm) (state_from state_to : StatePtr)
    (interval : Nat) (cb : Callback) :
    (f.add_timed_transition state_from state_to interval cb).m_current_state
        = f.m_current_state
      ∧ ∀ tt ∈ (f.add_timed_transition state_from state_to interval cb).m_timed_transitions,
          tt ∈ f.m_timed_transitions ∨ tt.start = 0 := by
  unfold Fsm.add_timed_transition
  split
  · exact ⟨rfl, fun tt h => Or.inl h⟩
  · exact add_timed_transition_obj_frame f interval _

theorem check_timer_result (w : Nat) (millis : Nat → Nat) (f f' : Fsm) (tr : List Effect)
    (h : f.check_timer w millis = some (f', tr)) :
    check_timer_loop w millis 0 f.m_current_state f.m_timed_transitions
        = some (f'.m_timed_transitions, f'.m_current_state, tr)
      ∧ f'.m_transitions = f.m_transitions := by
  unfold Fsm.check_timer at h
  cases hloop : check_timer_loop w millis 0 f.m_current_state f.m_timed_transitions with
  | none => simp [hloop] at h
  | some r =>
    obtain ⟨tts, c, tr0⟩ := r
    simp only [hloop, Option.some.injEq, Prod.mk.injEq] at h
    obtain ⟨hf, htr⟩ := h
    subst hf; subst htr
    exact ⟨rfl, rfl⟩

theorem reachable_start_inv (w : Nat) (s0 : StatePtr) (f : Fsm) (tr : List Effect)
    (h : Reachable w s0 [] f tr) :
    was_current s0 tr f.m_current_state
      ∧ ∀ tt ∈ f.m_timed_transitions, tt.start ≠ 0 →
          was_current s0 tr tt.transition.state_from := by
  induction h with
  | construct => exact ⟨Or.inl rfl, by simp [Fsm.new]⟩
  | add_transition state_from state_to event cb _ ih =>
    obtain ⟨hc, ht⟩ := add_transition_frame _ state_from state_to event cb
    rw [hc, ht]; exact ih
  | add_transition_obj t _ ih =>
    obtain ⟨hc, ht⟩ := add_transition_obj_frame _ t
    rw [hc, ht]; exact ih
  | add_timed_transition state_from state_to interval cb _ ih =>
    obtain ⟨hc, ht⟩ := add_timed_transition_frame _ state_from state_to interval cb
    rw [hc]
    refine ⟨ih.1, ?_⟩
    intro tt htt hne
    rcases ht tt htt with hold | h0
    · exact ih.2 tt hold hne
    · exact absurd h0 hne
  | add_timed_transition_obj interval t _ ih =>
    obtain ⟨hc, ht⟩ := add_timed_transition_obj_frame _ interval t
    rw [hc]
    refine ⟨ih.1, ?_⟩
    intro tt htt hne
    rcases ht tt htt with hold | h0
    · exact ih.2 tt hold hne
    · exact absurd h0 hne
  | trigger event _ hstep ih =>
    obtain ⟨_, htimed, hcur⟩ := trigger_result _ _ event _ hstep
    refine ⟨was_current_of_step s0 _ _ _ _ ih.1 hcur, ?_⟩
    intro tt htt hne
    rw [htimed] at htt
    exact was_current_append s0 _ _ _ (ih.2 tt htt hne)
  | check_timer millis _ hstep ih =>
    obtain ⟨hloop, _⟩ := check_timer_result w millis _ _ _ hstep
    obtain ⟨hcur, hentries⟩ := check_timer_loop_result w millis _ _ _ _ _ _ hloop
    refine ⟨was_current_of_step s0 _ _ _ _ ih.1 hcur, ?_⟩
    intro tt' htt' hne
    obtain ⟨tt, htt, htrans, _, hst⟩ := hentries tt' htt'
    rw [htrans]
    rcases hst hne with h0 | hsrc
    · exact was_current_append s0 _ _ _ (ih.2 tt htt h0)
    · exact was_current_of_step s0 _ _ _ _ ih.1 hsrc

theorem sample_stale_moved_reachable :
    Reachable 32 (some 1) [] sample_stale_moved
      [Effect.on_exit 1, Effect.on_transition (sample_transition 1 2 7), Effect.on_enter 2] := by
  have h0 : Reachable 32 (some 1) [] sample_stale [] :=
    Reachable.add_timed_transition _ _ _ _
      (Reachable.add_timed_transition _ _ _ _
        (Reachable.add_transition _ _ _ _ Reachable.construct))
  have h1 : Reachable 32 (some 1) [] sample_stale_armed ([] ++ []) :=
    Reachable.check_timer (fun _ => 5) h0 (by decide)
  have h2 : Reachable 32 (some 1) [] sample_stale_moved
      (([] ++ []) ++ [Effect.on_exit 1, Effect.on_transition (sample_transition 1 2 7),
        Effect.on_enter 2]) :=
    Reachable.trigger 7 h1 (by decide)
  exact h2

/-- Claim C8 (counterexample).  Construct the engine in state 1, register a plain
transition from 1 to 2 on event 7 and timed transitions from 1 to 3 and from 3 to 1,
call `check_timer` at reading 5 and then `trigger(7)`.  In the state reached the
current state is 2 and the timed entry from state 1, which is not the current
state, still has its start-timestamp 5. -/
theorem stale_start_after_trigger :
    ¬ (∀ (f : Fsm) (tr : List Effect), Reachable 32 (some 1) [] f tr →
        ∀ tt ∈ f.m_timed_transitions,
          tt.transition.state_from ≠ f.m_current_state → tt.start = 0) := by
  intro hall
  have h := hall sample_stale_moved _ sample_stale_moved_reachable (sample_timed 1 3 100 5)
    (by decide) (by decide)
  exact absurd h (by decide)

/-- Claim C8 (amended).  In every engine state reachable from construction (on zeroed
storage) by registration, `trigger` and `check_timer` calls, the current state is
the initial state or a state that has been entered, and every timed entry whose
source state has never been the current state (it is not the initial state and
`on_enter` has not been invoked on it) has its start-timestamp unset. -/
theorem start_unset_until_source_current (w : Nat) (s0 : StatePtr) (f : Fsm)
    (tr : List Effect) (h : Reachable w s0 [] f tr) :
    was_current s0 tr f.m_current_state
      ∧ ∀ tt ∈ f.m_timed_transitions,
          ¬ was_current s0 tr tt.transition.state_from → tt.start = 0 := by
  obtain ⟨hcur, hst⟩ := reachable_start_inv w s0 f tr h
  refine ⟨hcur, ?_⟩
  intro tt htt hnever
  by_contra hne
  exact hnever (hst tt htt hne)

theorem start_unset_until_source_current_witness :
    (sample_stale_moved.m_current_state = some 2
      ∧ sample_stale_moved.m_timed_transitions
          = [sample_timed 1 3 100 5, sample_timed 3 1 10 0]
      ∧ ¬ was_current (some 1)
          [Effect.on_exit 1, Effect.on_transition (sample_transition 1 2 7), Effect.on_enter 2]
          (sample_timed 3 1 10 0).transition.state_from)
    ∧ (was_current (some 1)
          [Effect.on_exit 1, Effect.on_transition (sample_transition 1 2 7), Effect.on_enter 2]
          sample_stale_moved.m_current_state
        ∧ ∀ tt ∈ sample_stale_moved.m_timed_transitions,
            ¬ was_current (some 1)
                [Effect.on_exit 1, Effect.on_transition (sample_transition 1 2 7),
                  Effect.on_enter 2]
                tt.transition.state_from → tt.start = 0) :=
  ⟨by decide,
   start_unset_until_source_current 32 (some 1) sample_stale_moved _
     sample_stale_moved_reachable⟩

/-! ## Registration, construction and teardown -/

/-- Claim C11.  Every accepted registration call appends exactly one entry at the
end of its own table and changes nothing else.  The four-argument `add_transition`
appends a transition with the given source, destination, event and callback,
flagged `to_delete` (engine-owned); `add_transition(transition)` appends the
host's transition as it is; the four-argument `add_timed_transition` appends an
entry with the given interval, start-timestamp unset and an engine-owned transition
of event 0; `add_timed_transition(interval, transition)` appends an entry with the
given interval, start-timestamp unset and the host's transition.  The other table,
the earlier entries of the table and the current state are as before. -/
theorem registration_appends_one (f : Fsm) :
    (∀ (a b : State) (event : Int) (cb : Callback),
        f.add_transition (some a) (some b) event cb
          = { f with
                m_transitions := f.m_transitions ++
                  [{ state_from := some a, state_to := some b, event := event,
                     to_delete := true, callback_transition := cb }] })
    ∧ (∀ t : Transition,
        f.add_transition_obj (some t)
          = { f with m_transitions := f.m_transitions ++ [t] })
    ∧ (∀ (a b : State) (interval : Nat) (cb : Callback),
        f.add_timed_transition (some a) (some b) interval cb
          = { f with
                m_timed_transitions := f.m_timed_transitions ++
                  [{ transition :=
                       { state_from := some a, state_to := some b, event := 0,
                         to_delete := true, callback_transition := cb },
                     start := 0, interval := interval }] })
    ∧ (∀ (interval : Nat) (t : Transition),
        f.add_timed_transition_obj interval (some t)
          = { f with
                m_timed_transitions := f.m_timed_transitions ++
                  [{ transition := t, start := 0, interval := interval }] }) := by
  refine ⟨?_, fun _ => rfl, ?_, fun _ _ => rfl⟩
  · intro a b event cb
    simp [Fsm.add_transition, Fsm.add_transition_obj, Fsm.create_transition]
  · intro a b interval cb
    simp [Fsm.add_timed_transition, Fsm.add_timed_transition_obj, Fsm.create_transition]

/-- Claim C15.  For every initial state `s` (and whatever the object's storage
held), the current state of the engine right after the construction `Fsm(s)` is
`s`. -/
theorem constructor_sets_current_state (s : StatePtr) (storage : List TimedTransition) :
    (Fsm.new s storage).m_current_state = s :=
  rfl

/-- Claim C12 (the code at the failing input).  An engine with an engine-created and
a host-supplied transition in each table: the destructor deletes the engine-created
plain transition and frees the two arrays; the engine-created transition of the
timed table, flagged `to_delete` like the plain one, is not deleted.  What the
destructor releases does not depend on the timed table at all. -/
theorem destructor_skips_timed_table :
    sample_owned.m_transitions = [sample_transition 1 2 7, host_transition 2 1 8]
    ∧ sample_owned.m_timed_transitions
        = [sample_timed 1 3 100 0,
           { transition := host_transition 3 1 0, start := 0, interval := 50 }]
    ∧ (sample_timed 1 3 100 0).transition.to_delete = true
    ∧ sample_owned.destructor
        = [Release.delete_transition (sample_transition 1 2 7), Release.free_transitions,
           Release.free_timed_transitions]
    ∧ Release.delete_transition (sample_timed 1 3 100 0).transition ∉ sample_owned.destructor
    ∧ (∀ (f : Fsm) (timed : List TimedTransition),
        ({ f with m_timed_transitions := timed }).destructor = f.destructor) := by
  refine ⟨by decide, by decide, by decide, by decide, by decide, fun _ _ => rfl⟩

/-- Claim C20 (the code at the failing input).  The constructor writes the current
state and the plain table only: the timed table is what the storage held.  On
storage that describes one armed entry, the engine has a timed table of length 1
before anything is registered, a `check_timer` call fires that entry, and the first
`add_timed_transition` yields a table of length 2. -/
theorem constructor_keeps_timed_storage :
    (∀ (s : StatePtr) (storage : List TimedTransition),
        (Fsm.new s storage).m_transitions = []
        ∧ (Fsm.new s storage).m_timed_transitions = storage)
    ∧ sample_garbage.m_timed_transitions.length = 1
    ∧ sample_garbage.check_timer 32 (fun _ => 9)
        = some ({ sample_garbage with
                    m_current_state := some 2,
                    m_timed_transitions := [sample_timed 1 2 0 0] },
            [Effect.println 9, Effect.on_exit 1,
             Effect.on_transition (sample_transition 1 2 0), Effect.on_enter 2])
    ∧ (sample_garbage.add_timed_transition (some 1) (some 2) 100
        none).m_timed_transitions.length = 2 := by
  refine ⟨fun _ _ => ⟨rfl, rfl⟩, by decide, by decide, by decide⟩

/-! ## End-to-end scenarios -/

/-- Claim C13.  The event scenario: states `idle` and `running`, plain transitions
from `idle` to `running` on event 1 with action `A` and from `running` to `idle` on
event 2 with action `B`, initial state `idle`.  The calls `trigger(2)`, `trigger(1)`,
`trigger(1)`, `trigger(2)` leave the engine in the states `idle`, `running`,
`running`, `idle`; the first and the third invoke nothing; the effects of the four
calls together are `idle.on_exit`, the hook of the first transition (which calls
`A`), `running.on_enter`, `running.on_exit`, the hook of the second transition
(which calls `B`), `idle.on_enter`. -/
theorem event_scenario_run (idle running : State) (A B : Nat) (hne : idle ≠ running) :
    (event_scenario idle running (some A) (some B)).m_current_state = some idle
    ∧ (event_scenario idle running (some A) (some B)).trigger 2
        = some (event_scenario idle running (some A) (some B), [])
    ∧ (event_scenario idle running (some A) (some B)).trigger 1
        = some ({ event_scenario idle running (some A) (some B) with
                    m_current_state := some running },
            [Effect.on_exit idle,
             Effect.on_transition (Transition.mk (some idle) (some running) 1 true (some A)),
             Effect.on_enter running])
    ∧ ({ event_scenario idle running (some A) (some B) with
          m_current_state := some running }).trigger 1
        = some ({ event_scenario idle running (some A) (some B) with
                    m_current_state := some running }, [])
    ∧ ({ event_scenario idle running (some A) (some B) with
          m_current_state := some running }).trigger 2
        = some (event_scenario idle running (some A) (some B),
            [Effect.on_exit running,
             Effect.on_transition (Transition.mk (some running) (some idle) 2 true (some B)),
             Effect.on_enter idle])
    ∧ trigger_calls [2, 1, 1, 2] (event_scenario idle running (some A) (some B))
        = some (event_scenario idle running (some A) (some B),
            [Effect.on_exit idle,
             Effect.on_transition (Transition.mk (some idle) (some running) 1 true (some A)),
             Effect.on_enter running,
             Effect.on_exit running,
             Effect.on_transition (Transition.mk (some running) (some idle) 2 true (some B)),
             Effect.on_enter idle])
    ∧ callbacks_run
        [Effect.on_exit idle,
         Effect.on_transition (Transition.mk (some idle) (some running) 1 true (some A)),
         Effect.on_enter running,
         Effect.on_exit running,
         Effect.on_transition (Transition.mk (some running) (some idle) 2 true (some B)),
         Effect.on_enter idle] = [A, B] := by
  have hne' : running ≠ idle := fun h => hne h.symm
  have h1 : (event_scenario idle running (some A) (some B)).trigger 2
        = some (event_scenario idle running (some A) (some B), []) := by
    simp [event_scenario, Fsm.new, Fsm.add_transition, Fsm.add_transition_obj,
      Fsm.create_transition, Fsm.trigger, trigger_loop, hne, hne']
  have h2 : (event_scenario idle running (some A) (some B)).trigger 1
        = some ({ event_scenario idle running (some A) (some B) with
                    m_current_state := some running },
            [Effect.on_exit idle,
             Effect.on_transition (Transition.mk (some idle) (some running) 1 true (some A)),
             Effect.on_enter running]) := by
    simp [event_scenario, Fsm.new, Fsm.add_transition, Fsm.add_transition_obj,
      Fsm.create_transition, Fsm.trigger, trigger_loop, Transition.make_transition,
      Transition.on_transition, on_exit, on_enter, hne, hne']
  have h3 : ({ event_scenario idle running (some A) (some B) with
          m_current_state := some running }).trigger 1
        = some ({ event_scenario idle running (some A) (some B) with
                    m_current_state := some running }, []) := by
    simp [event_scenario, Fsm.new, Fsm.add_transition, Fsm.add_transition_obj,
      Fsm.create_transition, Fsm.trigger, trigger_loop, hne, hne']
  have h4 : ({ event_scenario idle running (some A) (some B) with
          m_current_state := some running }).trigger 2
        = some (event_scenario idle running (some A) (some B),
            [Effect.on_exit running,
             Effect.on_transition (Transition.mk (some running) (some idle) 2 true (some B)),
             Effect.on_enter idle]) := by
    simp [event_scenario, Fsm.new, Fsm.add_transition, Fsm.add_transition_obj,
      Fsm.create_transition, Fsm.trigger, trigger_loop, Transition.make_transition,
      Transition.on_transition, on_exit, on_enter, hne, hne']
  refine ⟨rfl, h1, h2, h3, h4, ?_, ?_⟩
  · simp only [trigger_calls, h1, h2, h3, h4]
    simp
  · simp [callbacks_run, CBTransition.on_transition]

theorem event_scenario_run_witness :
    trigger_calls [2, 1, 1, 2] (event_scenario 1 2 (some 10) (some 20))
        = some (event_scenario 1 2 (some 10) (some 20),
            [Effect.on_exit 1,
             Effect.on_transition (Transition.mk (some 1) (some 2) 1 true (some 10)),
             Effect.on_enter 2,
             Effect.on_exit 2,
             Effect.on_transition (Transition.mk (some 2) (some 1) 2 true (some 20)),
             Effect.on_enter 1]) :=
  (event_scenario_run 1 2 10 20 (by decide)).2.2.2.2.2.1

/-- Claim C14 (counterexample).  The timed scenario with states 1 and 2.  The
`check_timer` call at clock reading 0 leaves the engine exactly as it was: the
entry's start-timestamp is 0 after the call as before it, which is the unset
marker.  The call at reading 50 does not leave the start-timestamp as it was: it
sets it, to 50. -/
theorem timed_scenario_poll_at_zero_unset :
    (timed_scenario 1 2 none).m_timed_transitions = [sample_timed 1 2 100 0]
    ∧ (sample_timed 1 2 100 0).start = 0
    ∧ (timed_scenario 1 2 none).check_timer 32 (fun _ => 0)
        = some (timed_scenario 1 2 none, [])
    ∧ (timed_scenario 1 2 none).check_timer 32 (fun _ => 50)
        = some ({ timed_scenario 1 2 none with
                    m_timed_transitions := [sample_timed 1 2 100 50] }, []) := by
  decide

/-- Claim C14 (amended).  The timed scenario: states `a` and `b`, one timed
transition from `a` to `b` with interval 100, initial state `a`.  A `check_timer`
call at clock reading 0 changes nothing: it stores the reading 0, the unset marker,
so the entry stays unset.  A call at reading 50 leaves the state as `a` and sets the
start-timestamp to 50.  A call at reading 150 then changes the state to `b`,
invoking `a.on_exit`, the transition's hook and `b.on_enter` in this order (after
the `Serial.println` of the reading), and resets the start-timestamp. -/
theorem timed_scenario_run (a b : State) (cb : Callback) (hne : a ≠ b) :
    (timed_scenario a b cb).m_current_state = some a
    ∧ (timed_scenario a b cb).m_timed_transitions
        = [{ transition := Transition.mk (some a) (some b) 0 true cb,
             start := 0, interval := 100 }]
    ∧ (timed_scenario a b cb).check_timer 32 (fun _ => 0) = some (timed_scenario a b cb, [])
    ∧ (timed_scenario a b cb).check_timer 32 (fun _ => 50)
        = some ({ timed_scenario a b cb with
                    m_timed_transitions :=
                      [{ transition := Transition.mk (some a) (some b) 0 true cb,
                         start := 50, interval := 100 }] }, [])
    ∧ ({ timed_scenario a b cb with
          m_timed_transitions :=
            [{ transition := Transition.mk (some a) (some b) 0 true cb,
               start := 50, interval := 100 }] }).check_timer 32 (fun _ => 150)
        = some ({ timed_scenario a b cb with m_current_state := some b },
            [Effect.println 150, Effect.on_exit a,
             Effect.on_transition (Transition.mk (some a) (some b) 0 true cb),
             Effect.on_enter b])
    ∧ check_timer_polls 32 [fun _ => 0, fun _ => 50, fun _ => 150] (timed_scenario a b cb)
        = some ({ timed_scenario a b cb with m_current_state := some b },
            [Effect.println 150, Effect.on_exit a,
             Effect.on_transition (Transition.mk (some a) (some b) 0 true cb),
             Effect.on_enter b]) := by
  have hsub : ulong_sub 32 150 50 = 100 := by decide
  have h1 : (timed_scenario a b cb).check_timer 32 (fun _ => 0)
      = some (timed_scenario a b cb, []) := by
    simp [timed_scenario, Fsm.new, Fsm.add_timed_transition, Fsm.add_timed_transition_obj,
      Fsm.create_transition, Fsm.check_timer, check_timer_loop, check_timer_entry]
  have h2 : (timed_scenario a b cb).check_timer 32 (fun _ => 50)
        = some ({ timed_scenario a b cb with
                    m_timed_transitions :=
                      [{ transition := Transition.mk (some a) (some b) 0 true cb,
                         start := 50, interval := 100 }] }, []) := by
    simp [timed_scenario, Fsm.new, Fsm.add_timed_transition, Fsm.add_timed_transition_obj,
      Fsm.create_transition, Fsm.check_timer, check_timer_loop, check_timer_entry]
  have h3 : ({ timed_scenario a b cb with
          m_timed_transitions :=
            [{ transition := Transition.mk (some a) (some b) 0 true cb,
               start := 50, interval := 100 }] }).check_timer 32 (fun _ => 150)
        = some ({ timed_scenario a b cb with m_current_state := some b },
            [Effect.println 150, Effect.on_exit a,
             Effect.on_transition (Transition.mk (some a) (some b) 0 true cb),
             Effect.on_enter b]) := by
    simp [timed_scenario, Fsm.new, Fsm.add_timed_transition, Fsm.add_timed_transition_obj,
      Fsm.create_transition, Fsm.check_timer, check_timer_loop, check_timer_entry, hsub,
      Transition.make_transition, Transition.on_transition, on_exit, on_enter, hne]
  refine ⟨rfl, ?_, h1, h2, h3, ?_⟩
  · simp [timed_scenario, Fsm.new, Fsm.add_timed_transition, Fsm.add_timed_transition_obj,
      Fsm.create_transition]
  · simp only [check_timer_polls, h1, h2, h3]
    simp

theorem timed_scenario_run_witness :
    check_timer_polls 32 [fun _ => 0, fun _ => 50, fun _ => 150] (timed_scenario 1 2 none)
        = some ({ timed_scenario 1 2 none with m_current_state := some 2 },
            [Effect.println 150, Effect.on_exit 1,
             Effect.on_transition (Transition.mk (some 1) (some 2) 0 true none),
             Effect.on_enter 2]) :=
  (timed_scenario_run 1 2 none (by decide)).2.2.2.2.2

/-! ## Invariants of the current state -/

theorem add_timed_transition_obj_mono (f : Fsm) (interval : Nat) (t : Option Transition) :
    (f.add_timed_transition_obj interval t).m_transitions = f.m_transitions
      ∧ ∀ tt ∈ f.m_timed_transitions,
          tt ∈ (f.add_timed_transition_obj interval t).m_timed_transitions := by
  cases t with
  | none => exact ⟨rfl, fun _ h => h⟩
  | some t => exact ⟨rfl, fun tt h => by simp [Fsm.add_timed_transition_obj, h]⟩

theorem add_timed_transition_mono (f : Fsm) (state_from state_to : StatePtr)
    (interval : Nat) (cb : Callback) :
    (f.add_timed_transition state_from state_to interval cb).m_transitions = f.m_transitions
      ∧ ∀ tt ∈ f.m_timed_transitions,
          tt ∈ (f.add_timed_transition state_from state_to interval cb).m_timed_transitions := by
  unfold Fsm.add_timed_transition
  split
  · exact ⟨rfl, fun _ h => h⟩
  · exact add_timed_transition_obj_mono f interval _

theorem check_timer_entry_state (w now : Nat) (cur : StatePtr) (tt tt' : TimedTransition)
    (c' : StatePtr) (tr : List Effect)
    (h : check_timer_entry w now cur tt = some (tt', c', tr)) :
    c' = cur ∨ c' = tt.transition.state_to := by
  by_cases hsrc : tt.transition.state_from = cur
  · by_cases hstart : tt.start = 0
    · rw [check_timer_entry_arm w now cur tt hsrc hstart] at h
      simp only [Option.some.injEq, Prod.mk.injEq] at h
      exact Or.inl h.2.1.symm
    · by_cases hge : tt.interval ≤ ulong_sub w now tt.start
      · rw [check_timer_entry_fire w now cur tt hsrc hstart hge] at h
        cases hmk : tt.transition.make_transition with
        | none => simp [hmk] at h
        | some r =>
          obtain ⟨s, tr0⟩ := r
          simp only [hmk, Option.some.injEq, Prod.mk.injEq] at h
          rw [← h.2.1]
          exact Or.inr (make_transition_result tt.transition s tr0 hmk).1
      · rw [check_timer_entry_hold w now cur tt hsrc hstart (Nat.not_le.mp hge)] at h
        simp only [Option.some.injEq, Prod.mk.injEq] at h
        exact Or.inl h.2.1.symm
  · rw [check_timer_entry_other w now cur tt hsrc] at h
    simp only [Option.some.injEq, Prod.mk.injEq] at h
    exact Or.inl h.2.1.symm

theorem check_timer_loop_state (w : Nat) (millis : Nat → Nat) :
    ∀ (tts : List TimedTransition) (i : Nat) (cur : StatePtr) (tts' : List TimedTransition)
      (c' : StatePtr) (tr : List Effect),
      check_timer_loop w millis i cur tts = some (tts', c', tr) →
      tts'.map (fun tt => tt.transition) = tts.map (fun tt => tt.transition)
      ∧ tts'.map (fun tt => tt.interval) = tts.map (fun tt => tt.interval)
      ∧ (c' = cur ∨ ∃ tt ∈ tts, c' = tt.transition.state_to) := by
  intro tts
  induction tts with
  | nil =>
    intro i cur tts' c' tr h
    simp only [check_timer_loop, Option.some.injEq, Prod.mk.injEq] at h
    obtain ⟨h1, h2, _⟩ := h
    subst h1; subst h2
    exact ⟨rfl, rfl, Or.inl rfl⟩
  | cons tt rest ih =>
    intro i cur tts' c' tr h
    rw [check_timer_loop_cons] at h
    cases hentry : check_timer_entry w (millis i) cur tt with
    | none => simp [hentry] at h
    | some r =>
      obtain ⟨tt1, c1, tra⟩ := r
      cases hrest : check_timer_loop w millis (i + 1) c1 rest with
      | none => simp [hentry, hrest] at h
      | some r2 =>
        obtain ⟨rest', c2, trb⟩ := r2
        simp only [hentry, hrest, Option.some.injEq, Prod.mk.injEq] at h
        obtain ⟨h1, h2, _⟩ := h
        subst h1; subst h2
        obtain ⟨htrans, hint, _, _⟩ := check_timer_entry_result w _ cur tt tt1 c1 tra hentry
        have hc1 := check_timer_entry_state w _ cur tt tt1 c1 tra hentry
        obtain ⟨hmapt, hmapi, hc2⟩ := ih (i + 1) c1 rest' c2 trb hrest
        refine ⟨by simp [htrans, hmapt], by simp [hint, hmapi], ?_⟩
        rcases hc2 with hc | ⟨tt0, htt0, hc⟩
        · rcases hc1 with hc1 | hc1
          · exact Or.inl (hc.trans hc1)
          · exact Or.inr ⟨tt, by simp, hc.trans hc1⟩
        · exact Or.inr ⟨tt0, by simp [htt0], hc⟩

theorem check_timer_state (w : Nat) (millis : Nat → Nat) (f f' : Fsm) (tr : List Effect)
    (h : f.check_timer w millis = some (f', tr)) :
    f'.m_transitions = f.m_transitions
      ∧ f'.m_timed_transitions.map (fun tt => tt.transition)
          = f.m_timed_transitions.map (fun tt => tt.transition)
      ∧ f'.m_timed_transitions.map (fun tt => tt.interval)
          = f.m_timed_transitions.map (fun tt => tt.interval)
      ∧ (f'.m_current_state = f.m_current_state
          ∨ ∃ tt ∈ f'.m_timed_transitions, tt.transition.state_to = f'.m_current_state) := by
  obtain ⟨hloop, hplain⟩ := check_timer_result w millis f f' tr h
  obtain ⟨hmapt, hmapi, hc⟩ := check_timer_loop_state w millis _ _ _ _ _ _ hloop
  refine ⟨hplain, hmapt, hmapi, ?_⟩
  rcases hc with hc | ⟨tt, htt, hc⟩
  · exact Or.inl hc
  · have hin : tt.transition ∈ f'.m_timed_transitions.map (fun tt => tt.transition) := by
      rw [hmapt]; exact List.mem_map.mpr ⟨tt, htt, rfl⟩
    obtain ⟨tt', htt', heq⟩ := List.mem_map.mp hin
    exact Or.inr ⟨tt', htt', by rw [heq, hc]⟩

theorem mem_of_map_transition_eq (l l' : List TimedTransition)
    (h : l'.map (fun tt => tt.transition) = l.map (fun tt => tt.transition))
    (tt : TimedTransition) (htt : tt ∈ l) :
    ∃ tt' ∈ l', tt'.transition = tt.transition := by
  have hin : tt.transition ∈ l'.map (fun tt => tt.transition) := by
    rw [h]; exact List.mem_map.mpr ⟨tt, htt, rfl⟩
  obtain ⟨tt', htt', heq⟩ := List.mem_map.mp hin
  exact ⟨tt', htt', heq⟩

theorem make_transition_total (t : Transition) (h : t.has_states) :
    ∃ r, t.make_transition = some r := by
  obtain ⟨hfrom, hto⟩ := h
  cases hf : t.state_from with
  | none => exact absurd hf hfrom
  | some a =>
    cases ht : t.state_to with
    | none => exact absurd ht hto
    | some b => exact ⟨_, make_transition_valid t a b hf ht⟩

theorem trigger_loop_total (cur : StatePtr) (event : Int) (ts : List Transition)
    (h : ∀ t ∈ ts, t.has_states) : ∃ r, trigger_loop cur event ts = some r := by
  induction ts with
  | nil => exact ⟨_, rfl⟩
  | cons u us ih =>
    by_cases hu : u.state_from = cur ∧ u.event = event
    · simp only [trigger_loop, if_pos hu]
      exact make_transition_total u (h u (by simp))
    · simp only [trigger_loop, if_neg hu]
      exact ih (fun t ht => h t (by simp [ht]))

theorem trigger_total (f : Fsm) (event : Int) (h : ∀ t ∈ f.m_transitions, t.has_states) :
    ∃ r, f.trigger event = some r := by
  obtain ⟨⟨s, tr⟩, hr⟩ := trigger_loop_total f.m_current_state event f.m_transitions h
  exact ⟨({ f with m_current_state := s }, tr), by simp [Fsm.trigger, hr]⟩

theorem check_timer_entry_total (w now : Nat) (cur : StatePtr) (tt : TimedTransition)
    (h : tt.transition.has_states) : ∃ r, check_timer_entry w now cur tt = some r := by
  by_cases hsrc : tt.transition.state_from = cur
  · by_cases hstart : tt.start = 0
    · exact ⟨_, check_timer_entry_arm w now cur tt hsrc hstart⟩
    · by_cases hge : tt.interval ≤ ulong_sub w now tt.start
      · obtain ⟨⟨s, tr⟩, hr⟩ := make_transition_total tt.transition h
        exact ⟨_, by rw [check_timer_entry_fire w now cur tt hsrc hstart hge, hr]⟩
      · exact ⟨_, check_timer_entry_hold w now cur tt hsrc hstart (Nat.not_le.mp hge)⟩
  · exact ⟨_, check_timer_entry_other w now cur tt hsrc⟩

theorem check_timer_loop_total (w : Nat) (millis : Nat → Nat) :
    ∀ (tts : List TimedTransition), (∀ tt ∈ tts, tt.transition.has_states) →
      ∀ (i : Nat) (cur : StatePtr), ∃ r, check_timer_loop w millis i cur tts = some r := by
  intro tts
  induction tts with
  | nil => intro _ i cur; exact ⟨_, rfl⟩
  | cons tt rest ih =>
    intro h i cur
    obtain ⟨⟨tt1, c1, tra⟩, he⟩ := check_timer_entry_total w (millis i) cur tt (h tt (by simp))
    obtain ⟨⟨rest', c2, trb⟩, hr⟩ := ih (fun x hx => h x (by simp [hx])) (i + 1) c1
    exact ⟨(tt1 :: rest', c2, tra ++ trb), by simp [check_timer_loop_cons, he, hr]⟩

theorem check_timer_total (w : Nat) (millis : Nat → Nat) (f : Fsm)
    (h : ∀ tt ∈ f.m_timed_transitions, tt.transition.has_states) :
    ∃ r, f.check_timer w millis = some r := by
  obtain ⟨⟨tts, c, tr⟩, hr⟩ :=
    check_timer_loop_total w millis f.m_timed_transitions h 0 f.m_current_state
  exact ⟨({ f with m_current_state := c, m_timed_transitions := tts }, tr),
    by simp [Fsm.check_timer, hr]⟩

theorem add_transition_obj_valid (f : Fsm) (t : Option Transition)
    (ht : ∀ u, t = some u → u.has_states) (h : ∀ u ∈ f.m_transitions, u.has_states) :
    ∀ u ∈ (f.add_transition_obj t).m_transitions, u.has_states := by
  cases t with
  | none => exact h
  | some t =>
    intro u hu
    simp only [Fsm.add_transition_obj, List.mem_append, List.mem_singleton] at hu
    rcases hu with hu | hu
    · exact h u hu
    · rw [hu]; exact ht t rfl

theorem add_transition_valid (f : Fsm) (state_from state_to : StatePtr) (event : Int)
    (cb : Callback) (h : ∀ u ∈ f.m_transitions, u.has_states) :
    ∀ u ∈ (f.add_transition state_from state_to event cb).m_transitions, u.has_states := by
  unfold Fsm.add_transition
  split
  · exact h
  · rename_i hnull
    apply add_transition_obj_valid f _ _ h
    intro u hu
    simp only [Option.some.injEq] at hu
    rw [← hu]
    simp only [not_or] at hnull
    exact ⟨hnull.1, hnull.2⟩

theorem add_timed_transition_obj_valid (f : Fsm) (interval : Nat) (t : Option Transition)
    (ht : ∀ u, t = some u → u.has_states)
    (h : ∀ tt ∈ f.m_timed_transitions, tt.transition.has_states) :
    ∀ tt ∈ (f.add_timed_transition_obj interval t).m_timed_transitions,
      tt.transition.has_states := by
  cases t with
  | none => exact h
  | some t =>
    intro tt htt
    simp only [Fsm.add_timed_transition_obj, List.mem_append, List.mem_singleton] at htt
    rcases htt with htt | htt
    · exact h tt htt
    · rw [htt]; exact ht t rfl

theorem add_timed_transition_valid (f : Fsm) (state_from state_to : StatePtr)
    (interval : Nat) (cb : Callback)
    (h : ∀ tt ∈ f.m_timed_transitions, tt.transition.has_states) :
    ∀ tt ∈ (f.add_timed_transition state_from state_to interval cb).m_timed_transitions,
      tt.transition.has_states := by
  unfold Fsm.add_timed_transition
  split
  · exact h
  · rename_i hnull
    apply add_timed_transition_obj_valid f interval _ _ h
    intro u hu
    simp only [Option.some.injEq] at hu
    rw [← hu]
    simp only [not_or] at hnull
    exact ⟨hnull.1, hnull.2⟩

theorem reachable_valid_inv (w : Nat) (a : State) (f : Fsm) (tr : List Effect)
    (h : ReachableValid w (some a) [] f tr) :
    f.m_current_state ≠ none
      ∧ (∀ t ∈ f.m_transitions, t.has_states)
      ∧ (∀ tt ∈ f.m_timed_transitions, tt.transition.has_states) := by
  induction h with
  | construct => exact ⟨by simp [Fsm.new], by simp [Fsm.new], by simp [Fsm.new]⟩
  | add_transition state_from state_to event cb _ ih =>
    obtain ⟨hc, ht⟩ := add_transition_frame _ state_from state_to event cb
    rw [hc, ht]
    exact ⟨ih.1, add_transition_valid _ state_from state_to event cb ih.2.1, ih.2.2⟩
  | add_transition_obj t hvalid _ ih =>
    obtain ⟨hc, ht⟩ := add_transition_obj_frame _ t
    rw [hc, ht]
    exact ⟨ih.1, add_transition_obj_valid _ t hvalid ih.2.1, ih.2.2⟩
  | add_timed_transition state_from state_to interval cb _ ih =>
    obtain ⟨hc, _⟩ := add_timed_transition_frame _ state_from state_to interval cb
    obtain ⟨hp, _⟩ := add_timed_transition_mono _ state_from state_to interval cb
    rw [hc, hp]
    exact ⟨ih.1, ih.2.1, add_timed_transition_valid _ state_from state_to interval cb ih.2.2⟩
  | add_timed_transition_obj interval t hvalid _ ih =>
    obtain ⟨hc, _⟩ := add_timed_transition_obj_frame _ interval t
    obtain ⟨hp, _⟩ := add_timed_transition_obj_mono _ interval t
    rw [hc, hp]
    exact ⟨ih.1, ih.2.1, add_timed_transition_obj_valid _ interval t hvalid ih.2.2⟩
  | trigger event _ hstep ih =>
    obtain ⟨hplain, htimed, hcur⟩ := trigger_result _ _ event _ hstep
    rw [hplain, htimed]
    refine ⟨?_, ih.2.1, ih.2.2⟩
    rcases hcur with hsame | ⟨b, hb, _⟩
    · rw [hsame]; exact ih.1
    · rw [hb]; simp
  | check_timer millis _ hstep ih =>
    obtain ⟨hloop, _⟩ := check_timer_result w millis _ _ _ hstep
    obtain ⟨hplain, hmapt, _, _⟩ := check_timer_state w millis _ _ _ hstep
    obtain ⟨hcur, _⟩ := check_timer_loop_result w millis _ _ _ _ _ _ hloop
    rw [hplain]
    refine ⟨?_, ih.2.1, ?_⟩
    · rcases hcur with hsame | ⟨b, hb, _⟩
      · rw [hsame]; exact ih.1
      · rw [hb]; simp
    · intro tt' htt'
      obtain ⟨tt, htt, heq⟩ := mem_of_map_transition_eq _ _ hmapt.symm tt' htt'
      rw [← heq]
      exact ih.2.2 tt htt

/-- Claim C17 (counterexample).  The constructor stores a `NULL` initial state as it
is: right after `Fsm(NULL)` the current state is null.  And
`add_transition(transition)` registers a host transition whose `state_from` and
`state_to` are `NULL`: only the transition pointer is tested. -/
theorem null_states_accepted :
    (Reachable 32 none [] (Fsm.new none []) []
      ∧ (Fsm.new none []).m_current_state = none)
    ∧ (Reachable 32 (some 1) []
          ((Fsm.new (some 1) []).add_transition_obj (some (Transition.mk none none 0 false none)))
          []
      ∧ ((Fsm.new (some 1) []).add_transition_obj
            (some (Transition.mk none none 0 false none))).m_transitions
          = [Transition.mk none none 0 false none]) :=
  ⟨⟨Reachable.construct, rfl⟩, ⟨Reachable.add_transition_obj _ Reachable.construct, rfl⟩⟩

/-- Claim C17 (amended).  When the initial state given to the constructor is not
null, then after construction (on zeroed storage) and after every sequence of
registration calls of the four shapes, `trigger` calls and `check_timer` calls in
which every host-supplied transition instance has non-null `state_from` and
`state_to`, the current state is not null and every registered transition, plain
or timed, has non-null `state_from` and `state_to`; on such an engine every
`trigger` and every `check_timer` call completes, no hook being called through a
null pointer. -/
theorem current_state_never_null (w : Nat) (a : State) (f : Fsm) (tr : List Effect)
    (h : ReachableValid w (some a) [] f tr) :
    f.m_current_state ≠ none
      ∧ (∀ t ∈ f.m_transitions, t.state_from ≠ none ∧ t.state_to ≠ none)
      ∧ (∀ tt ∈ f.m_timed_transitions,
          tt.transition.state_from ≠ none ∧ tt.transition.state_to ≠ none)
      ∧ (∀ event : Int, ∃ r, f.trigger event = some r)
      ∧ (∀ millis : Nat → Nat, ∃ r, f.check_timer w millis = some r) := by
  obtain ⟨hcur, hplain, htimed⟩ := reachable_valid_inv w a f tr h
  exact ⟨hcur, hplain, htimed, fun event => trigger_total f event hplain,
    fun millis => check_timer_total w millis f htimed⟩

theorem current_state_never_null_witness :
    sample_owned.m_current_state ≠ none
      ∧ (∀ t ∈ sample_owned.m_transitions, t.state_from ≠ none ∧ t.state_to ≠ none)
      ∧ (∀ tt ∈ sample_owned.m_timed_transitions,
          tt.transition.state_from ≠ none ∧ tt.transition.state_to ≠ none)
      ∧ (∀ event : Int, ∃ r, sample_owned.trigger event = some r)
      ∧ (∀ millis : Nat → Nat, ∃ r, sample_owned.check_timer 32 millis = some r) :=
  current_state_never_null 32 1 sample_owned []
    (ReachableValid.add_timed_transition_obj 50 (some (host_transition 3 1 0))
      (fun u hu => by cases hu; decide)
      (ReachableValid.add_timed_transition (some 1) (some 3) 100 none
        (ReachableValid.add_transition_obj (some (host_transition 2 1 8))
          (fun u hu => by cases hu; decide)
          (ReachableValid.add_transition (some 1) (some 2) 7 none
            ReachableValid.construct))))

/-! ## The scan of `check_timer` and the frame of `trigger` -/

theorem hook_count_append (tr tr' : List Effect) :
    hook_count (tr ++ tr') = hook_count tr + hook_count tr' := by
  induction tr with
  | nil => simp [hook_count]
  | cons e es ih =>
    cases e with
    | on_transition t =>
      rw [List.cons_append]
      simp only [hook_count]
      rw [ih]; omega
    | on_enter a =>
      rw [List.cons_append]
      simp only [hook_count]
      exact ih
    | on_exit a =>
      rw [List.cons_append]
      simp only [hook_count]
      exact ih
    | println n =>
      rw [List.cons_append]
      simp only [hook_count]
      exact ih

theorem make_transition_hook_count (t : Transition) (s : StatePtr) (tr : List Effect)
    (h : t.make_transition = some (s, tr)) : hook_count tr = 1 := by
  obtain ⟨sf, st, e, d, cb⟩ := t
  cases sf with
  | none =>
    cases st with
    | none =>
      simp [Transition.make_transition, Transition.on_transition] at h
      simp [← h.2, hook_count]
    | some b => simp [Transition.make_transition, on_exit] at h
  | some a =>
    cases st with
    | none => simp [Transition.make_transition, on_exit, on_enter] at h
    | some b =>
      by_cases hab : a = b
      · simp [Transition.make_transition, Transition.on_transition, hab] at h
        simp [← h.2, hook_count]
      · simp [Transition.make_transition, Transition.on_transition, hab, on_exit,
          on_enter] at h
        simp [← h.2, hook_count]

theorem check_timer_entry_hook_count (w now : Nat) (cur : StatePtr) (tt tt' : TimedTransition)
    (c' : StatePtr) (tr : List Effect)
    (h : check_timer_entry w now cur tt = some (tt', c', tr)) : hook_count tr ≤ 1 := by
  by_cases hsrc : tt.transition.state_from = cur
  · by_cases hstart : tt.start = 0
    · rw [check_timer_entry_arm w now cur tt hsrc hstart] at h
      simp only [Option.some.injEq, Prod.mk.injEq] at h
      rw [← h.2.2]; simp [hook_count]
    · by_cases hge : tt.interval ≤ ulong_sub w now tt.start
      · rw [check_timer_entry_fire w now cur tt hsrc hstart hge] at h
        cases hmk : tt.transition.make_transition with
        | none => simp [hmk] at h
        | some r =>
          obtain ⟨s, tr0⟩ := r
          simp only [hmk, Option.some.injEq, Prod.mk.injEq] at h
          rw [← h.2.2]
          simp [hook_count, make_transition_hook_count tt.transition s tr0 hmk]
      · rw [check_timer_entry_hold w now cur tt hsrc hstart (Nat.not_le.mp hge)] at h
        simp only [Option.some.injEq, Prod.mk.injEq] at h
        rw [← h.2.2]; simp [hook_count]
  · rw [check_timer_entry_other w now cur tt hsrc] at h
    simp only [Option.some.injEq, Prod.mk.injEq] at h
    rw [← h.2.2]; simp [hook_count]

theorem check_timer_loop_hook_count (w : Nat) (millis : Nat → Nat) :
    ∀ (tts : List TimedTransition) (i : Nat) (cur : StatePtr) (tts' : List TimedTransition)
      (c' : StatePtr) (tr : List Effect),
      check_timer_loop w millis i cur tts = some (tts', c', tr) →
      tts'.length = tts.length ∧ hook_count tr ≤ tts.length := by
  intro tts
  induction tts with
  | nil =>
    intro i cur tts' c' tr h
    simp only [check_timer_loop, Option.some.injEq, Prod.mk.injEq] at h
    obtain ⟨h1, _, h3⟩ := h
    subst h1; subst h3
    exact ⟨rfl, by simp [hook_count]⟩
  | cons tt rest ih =>
    intro i cur tts' c' tr h
    rw [check_timer_loop_cons] at h
    cases hentry : check_timer_entry w (millis i) cur tt with
    | none => simp [hentry] at h
    | some r =>
      obtain ⟨tt1, c1, tra⟩ := r
      cases hrest : check_timer_loop w millis (i + 1) c1 rest with
      | none => simp [hentry, hrest] at h
      | some r2 =>
        obtain ⟨rest', c2, trb⟩ := r2
        simp only [hentry, hrest, Option.some.injEq, Prod.mk.injEq] at h
        obtain ⟨h1, _, h3⟩ := h
        subst h1; subst h3
        have ha := check_timer_entry_hook_count w _ cur tt tt1 c1 tra hentry
        obtain ⟨hlen, hb⟩ := ih (i + 1) c1 rest' c2 trb hrest
        refine ⟨by simp [hlen], ?_⟩
        rw [hook_count_append, List.length_cons]
        omega

/-- Claim C18.  The loop of `check_timer` does not stop at the first match.  Each
entry `tt` of the table is examined by one iteration of the loop body, against the
current state `c1` that the iterations on the earlier entries have produced, and
the entries after it are examined in turn against the state that iteration
produces.  One iteration calls `make_transition` at most once, so an entry fires at
most once per call and a call invokes at most as many transition hooks as the table
has entries.  A single call can fire two distinct timed transitions: on the engine
`sample_two_loops`, with two armed self-loops on the current state whose intervals
have elapsed at reading 200, one call invokes the hooks of both. -/
theorem check_timer_examines_every_entry (w : Nat) (millis : Nat → Nat) (f : Fsm)
    (front : List TimedTransition) (tt : TimedTransition) (back : List TimedTransition)
    (front' : List TimedTransition) (c1 : StatePtr) (tr1 : List Effect)
    (hts : f.m_timed_transitions = front ++ tt :: back)
    (hfront : check_timer_loop w millis 0 f.m_current_state front = some (front', c1, tr1)) :
    f.check_timer w millis
      = (match check_timer_entry w (millis front.length) c1 tt with
         | none => none
         | some (tt', c2, tr2) =>
           match check_timer_loop w millis (front.length + 1) c2 back with
           | none => none
           | some (back', c3, tr3) =>
             some ({ f with m_current_state := c3,
                            m_timed_transitions := front' ++ tt' :: back' },
                   tr1 ++ tr2 ++ tr3))
    ∧ (∀ tt' c2 tr2, check_timer_entry w (millis front.length) c1 tt = some (tt', c2, tr2) →
        hook_count tr2 ≤ 1)
    ∧ (∀ f' tr, f.check_timer w millis = some (f', tr) →
        f'.m_timed_transitions.length = f.m_timed_transitions.length
        ∧ hook_count tr ≤ f.m_timed_transitions.length)
    ∧ (sample_two_loops.check_timer 32 (fun _ => 200)
        = some ({ sample_two_loops with
                    m_timed_transitions :=
                      [{ transition := Transition.mk (some 1) (some 1) 0 true (some 10),
                         start := 0, interval := 100 },
                       { transition := Transition.mk (some 1) (some 1) 0 true (some 20),
                         start := 0, interval := 50 }] },
            [Effect.println 200,
             Effect.on_transition (Transition.mk (some 1) (some 1) 0 true (some 10)),
             Effect.println 200,
             Effect.on_transition (Transition.mk (some 1) (some 1) 0 true (some 20))])
      ∧ Transition.mk (some 1) (some 1) 0 true (some 10)
          ≠ Transition.mk (some 1) (some 1) 0 true (some 20)) := by
  refine ⟨check_timer_at w millis f front tt back front' c1 tr1 hts hfront, ?_, ?_,
    by decide, by decide⟩
  · intro tt' c2 tr2 h
    exact check_timer_entry_hook_count w _ c1 tt tt' c2 tr2 h
  · intro f' tr h
    obtain ⟨hloop, _⟩ := check_timer_result w millis f f' tr h
    exact check_timer_loop_hook_count w millis _ _ _ _ _ _ hloop

theorem check_timer_examines_every_entry_witness :
    sample_two_loops.check_timer 32 (fun _ => 200)
      = (match check_timer_entry 32 200 (some 1)
            { transition := Transition.mk (some 1) (some 1) 0 true (some 20),
              start := 5, interval := 50 } with
         | none => none
         | some (tt', c2, tr2) =>
           match check_timer_loop 32 (fun _ => 200) 2 c2 [] with
           | none => none
           | some (back', c3, tr3) =>
             some ({ sample_two_loops with
                       m_current_state := c3,
                       m_timed_transitions :=
                         [{ transition := Transition.mk (some 1) (some 1) 0 true (some 10),
                            start := 0, interval := 100 }] ++ tt' :: back' },
                   [Effect.println 200,
                    Effect.on_transition (Transition.mk (some 1) (some 1) 0 true (some 10))]
                     ++ tr2 ++ tr3)) :=
  (check_timer_examines_every_entry 32 (fun _ => 200) sample_two_loops
    [{ transition := Transition.mk (some 1) (some 1) 0 true (some 10),
       start := 5, interval := 100 }]
    { transition := Transition.mk (some 1) (some 1) 0 true (some 20),
      start := 5, interval := 50 }
    []
    [{ transition := Transition.mk (some 1) (some 1) 0 true (some 10),
       start := 0, interval := 100 }]
    (some 1)
    [Effect.println 200,
     Effect.on_transition (Transition.mk (some 1) (some 1) 0 true (some 10))]
    rfl (by decide)).1

theorem trigger_loop_fired (cur : StatePtr) (event : Int) (ts : List Transition)
    (s : StatePtr) (tr : List Effect) (h : trigger_loop cur event ts = some (s, tr)) :
    (s = cur ∧ tr = []) ∨
      ∃ t ∈ ts, t.state_from = cur ∧ t.event = event ∧ t.make_transition = some (s, tr) := by
  induction ts with
  | nil =>
    simp only [trigger_loop, Option.some.injEq, Prod.mk.injEq] at h
    exact Or.inl ⟨h.1.symm, h.2.symm⟩
  | cons u us ih =>
    by_cases hu : u.state_from = cur ∧ u.event = event
    · simp only [trigger_loop, if_pos hu] at h
      exact Or.inr ⟨u, by simp, hu.1, hu.2, h⟩
    · simp only [trigger_loop, if_neg hu] at h
      rcases ih h with hsame | ⟨t, ht, hfrom, hev, hmk⟩
      · exact Or.inl hsame
      · exact Or.inr ⟨t, by simp [ht], hfrom, hev, hmk⟩

/-- Claim C19 (counterexample).  The host registers one transition object, from
state 1 to state 2 with event 0, through both instance forms, so that it is the
transition of the only entry of the timed table and also in the plain table.
`trigger(0)` fires it: a transition of the timed table is fired by `trigger`. -/
theorem trigger_fires_transition_in_both_tables :
    sample_both.m_current_state = some 1
    ∧ sample_both.m_transitions = [host_transition 1 2 0]
    ∧ sample_both.m_timed_transitions
        = [{ transition := host_transition 1 2 0, start := 0, interval := 100 }]
    ∧ sample_both.trigger 0
        = some ({ sample_both with m_current_state := some 2 },
            [Effect.on_exit 1, Effect.on_transition (host_transition 1 2 0),
             Effect.on_enter 2]) := by
  decide

/-- Claim C19 (amended).  `trigger` changes nothing but the current state.  After
`trigger(event)` the plain table and the timed table are what they were, every
start-timestamp and interval included.  The call does not scan the timed table:
with any other timed table it does the same, and what it fires, if anything, is a
transition of the plain table that matches the current state and the event; when no
plain transition matches, it fires nothing, whatever the entries of the timed table
(also for event 0, the event stored in engine-created timed transitions).  A
transition of the timed table is fired by `trigger` only when it is in the plain
table too. -/
theorem trigger_changes_only_current_state (f f' : Fsm) (event : Int) (tr : List Effect)
    (h : f.trigger event = some (f', tr)) :
    f' = { f with m_current_state := f'.m_current_state }
    ∧ f'.m_transitions = f.m_transitions
    ∧ f'.m_timed_transitions = f.m_timed_transitions
    ∧ (∀ timed : List TimedTransition,
        ({ f with m_timed_transitions := timed }).trigger event
          = some ({ f' with m_timed_transitions := timed }, tr))
    ∧ ((f'.m_current_state = f.m_current_state ∧ tr = [])
        ∨ ∃ t ∈ f.m_transitions, t.state_from = f.m_current_state ∧ t.event = event
            ∧ t.make_transition = some (f'.m_current_state, tr))
    ∧ ((∀ u ∈ f.m_transitions, ¬ (u.state_from = f.m_current_state ∧ u.event = event)) →
        f' = f ∧ tr = []) := by
  have hh := h
  unfold Fsm.trigger at hh
  cases hloop : trigger_loop f.m_current_state event f.m_transitions with
  | none => simp [hloop] at hh
  | some r =>
    obtain ⟨s, tr0⟩ := r
    simp only [hloop, Option.some.injEq, Prod.mk.injEq] at hh
    obtain ⟨hf, htr⟩ := hh
    subst hf; subst htr
    refine ⟨rfl, rfl, rfl, ?_, ?_, ?_⟩
    · intro timed
      simp [Fsm.trigger, hloop]
    · exact trigger_loop_fired _ _ _ _ _ hloop
    · intro hno
      rw [trigger_no_match f event hno] at h
      simp only [Option.some.injEq, Prod.mk.injEq] at h
      exact ⟨h.1.symm, h.2.symm⟩

theorem trigger_changes_only_current_state_witness :
    sample_chain.m_current_state = some 1
    ∧ sample_chain.m_timed_transitions = [sample_timed 1 2 100 5, sample_timed 2 1 30 0]
    ∧ (sample_timed 1 2 100 5).transition.event = 0
    ∧ (sample_chain = { sample_chain with m_current_state := sample_chain.m_current_state }
      ∧ sample_chain.m_transitions = sample_chain.m_transitions
      ∧ sample_chain.m_timed_transitions = sample_chain.m_timed_transitions
      ∧ (∀ timed : List TimedTransition,
          ({ sample_chain with m_timed_transitions := timed }).trigger 0
            = some ({ sample_chain with m_timed_transitions := timed }, []))
      ∧ ((sample_chain.m_current_state = sample_chain.m_current_state
            ∧ ([] : List Effect) = [])
          ∨ ∃ t ∈ sample_chain.m_transitions,
              t.state_from = sample_chain.m_current_state ∧ t.event = 0
              ∧ t.make_transition = some (sample_chain.m_current_state, []))
      ∧ ((∀ u ∈ sample_chain.m_transitions,
            ¬ (u.state_from = sample_chain.m_current_state ∧ u.event = 0)) →
          sample_chain = sample_chain ∧ ([] : List Effect) = []))
    ∧ (sample_stale_armed.m_timed_transitions
          = [sample_timed 1 3 100 5, sample_timed 3 1 10 0]
      ∧ sample_stale_moved.m_current_state = some 2
      ∧ sample_stale_moved.m_timed_transitions = sample_stale_armed.m_timed_transitions) :=
  ⟨rfl, rfl, rfl,
   trigger_changes_only_current_state sample_chain sample_chain 0 [] (by decide),
   rfl, rfl,
   (trigger_changes_only_current_state sample_stale_armed sample_stale_moved 7
      [Effect.on_exit 1, Effect.on_transition (sample_transition 1 2 7), Effect.on_enter 2]
      (by decide)).2.2.1⟩
